import Mathlib

/-!
Verification development for the scene-compositing and dual-backend video
rendering pipeline (render-plan/duration-compression algorithm, asset
preloading with retry and synthetic fallback, orchestrator backend fallback,
progress reporting, and WebCodecs frame timestamps).

The executable definitions below are shallow embeddings of the TypeScript
source: JavaScript numbers are modelled as exact rationals together with the
distinguished non-finite values, arrays as lists, and the redistribution
`while` loop as a fuelled recursion whose fuel is the iteration cap of the
source (1000).
-/

set_option autoImplicit false
set_option maxRecDepth 8192

namespace Autocreate

unseal Rat.add Rat.sub Rat.mul Rat.inv

/-! ### Shallow embedding of the source (data model and operations) -/

/-- Model of a JavaScript `number`: a finite rational or one of the
non-finite values `NaN`, `Infinity`, `-Infinity`. -/
inductive JSNum where
  | nan : JSNum
  | posInf : JSNum
  | negInf : JSNum
  | num : ℚ → JSNum
deriving DecidableEq

/-- The finite value of a JS number (0 for the non-finite values). -/
def JSNum.rawValue : JSNum → ℚ
  | .num q => q
  | _ => 0

/-- `Number.isFinite(v) && v > 0`: the data-model invariant on scene
durations (spec section 3: duration in seconds, strictly positive). -/
def JSNum.finitePos : JSNum → Prop
  | .num q => 0 < q
  | _ => False

instance (v : JSNum) : Decidable v.finitePos := by
  cases v with
  | num q => exact inferInstanceAs (Decidable (0 < q))
  | nan => exact isFalse (fun h => h)
  | posInf => exact isFalse (fun h => h)
  | negInf => exact isFalse (fun h => h)

/-- `KenBurnsConfig` from types.ts. -/
structure KenBurnsConfig where
  targetScale : ℚ
  targetXPercent : ℚ
  targetYPercent : ℚ
  originXRat : ℚ
  originYRat : ℚ
  animationDurationS : ℚ
deriving DecidableEq

/-- `footageType` field of a scene. -/
inductive FootageType where
  | image : FootageType
  | video : FootageType
deriving DecidableEq

/-- `Scene` from types.ts (the fields this core consumes). -/
structure Scene where
  id : String
  sceneText : String
  keywords : List String
  imagePrompt : String
  duration : JSNum
  footageUrl : String
  footageType : FootageType
  kenBurnsConfig : KenBurnsConfig
deriving DecidableEq

/-- `RenderMode` from the render-timing module. -/
inductive RenderMode where
  | preview : RenderMode
  | download : RenderMode
deriving DecidableEq

/-- `PREVIEW_MIN_SCENE_DURATION_SECONDS` (0.75 s). -/
def PREVIEW_MIN_SCENE_DURATION_SECONDS : ℚ := 3 / 4

/-- `PREVIEW_MAX_TOTAL_DURATION_SECONDS` (15 s). -/
def PREVIEW_MAX_TOTAL_DURATION_SECONDS : ℚ := 15

/-- The `epsilon` tolerance used by `clampDurationsWithMinimums` (1e-3). -/
def clampEpsilon : ℚ := 1 / 1000

/-- `sanitiseDuration`: non-finite or non-positive durations become 0. -/
def sanitiseDuration : JSNum → ℚ
  | .num q => if q ≤ 0 then 0 else q
  | _ => 0

/-- The reduction that one pass of the redistribution loop applies to a
single entry (`adjusted[index] -= reduction` in the source).  Entries whose
slack above their minimum is at most `epsilon` are not adjustable and are
skipped; for adjustable entries the reduction is
`min(maxReduction, decrement)`, guarded to be positive as in the source. -/
def stepReduction (dec a m : ℚ) : ℚ :=
  if clampEpsilon < a - m then
    if a - m ≤ 0 then 0
    else if min (a - m) dec ≤ 0 then 0
    else min (a - m) dec
  else 0

/-- One pass of the redistribution `while` loop body of
`clampDurationsWithMinimums`: every entry is reduced by its
`stepReduction`. -/
def clampPass (mins : List ℚ) (dec : ℚ) (adj : List ℚ) : List ℚ :=
  List.zipWith (fun a m => a - stepReduction dec a m) adj mins

/-- The total amount removed by one pass (`consumed` in the source). -/
def clampConsumed (mins : List ℚ) (dec : ℚ) (adj : List ℚ) : ℚ :=
  (List.zipWith (fun a m => stepReduction dec a m) adj mins).sum

/-- `adjustableIndices.length`: the number of entries whose slack above
their minimum exceeds `epsilon`. -/
def adjustableCount (mins : List ℚ) (adj : List ℚ) : ℕ :=
  (List.zipWith (fun a m => a - m) adj mins).countP (fun d => decide (clampEpsilon < d))

/-- The redistribution `while` loop of `clampDurationsWithMinimums`; the
iteration counter is modelled as fuel (the source caps it at 1000).
Returns the final `(total, adjusted)` pair.  As in the source, `total` is
the running value maintained by `total -= consumed`, which is not
decremented on the `consumed <= epsilon` early exit. -/
def clampLoop (mins : List ℚ) (target : ℚ) : ℕ → ℚ → List ℚ → ℚ × List ℚ
  | 0, total, adj => (total, adj)
  | fuel + 1, total, adj =>
    if clampEpsilon < total - target then
      let k := adjustableCount mins adj
      if k = 0 then (total, adj)
      else
        let dec := (total - target) / (k : ℚ)
        let adj' := clampPass mins dec adj
        let consumed := clampConsumed mins dec adj
        if consumed ≤ clampEpsilon then (total, adj')
        else clampLoop mins target fuel (total - consumed) adj'
    else (total, adj)

/-- `clampDurationsWithMinimums` from the render-timing module: iteratively
redistribute the excess above `targetTotal` over the entries that still have
slack above their minimums, then, if an excess remains, scale everything
down uniformly, clamped to the minimums. -/
def clampDurationsWithMinimums (durations mins : List ℚ) (targetTotal : ℚ) :
    List ℚ :=
  if durations = [] then durations
  else
    let total := durations.sum
    if total ≤ targetTotal then durations
    else
      let r := clampLoop mins targetTotal 1000 total durations
      if targetTotal < r.1 then
        List.zipWith (fun a m => max m (a * (targetTotal / r.1))) r.2 mins
      else r.2

/-- The number of strictly positive entries of a duration list
(`.filter(value => value > 0).length`). -/
def positiveCount (l : List ℚ) : ℕ :=
  (l.filter (fun v => decide (0 < v))).length

/-- The list `sanitisedDurations` computed by `computeEffectiveDurations`. -/
def sanitisedDurations (scenes : List Scene) : List ℚ :=
  scenes.map (fun s => sanitiseDuration s.duration)

/-- The `dynamicMinimum` of `computeEffectiveDurations`:
`min(PREVIEW_MIN_SCENE_DURATION_SECONDS, cap / positiveDurationCount)` when
there is a positive-duration scene, 0 otherwise. -/
def previewDynMin (scenes : List Scene) : ℚ :=
  if 0 < positiveCount (sanitisedDurations scenes) then
    min PREVIEW_MIN_SCENE_DURATION_SECONDS
      (PREVIEW_MAX_TOTAL_DURATION_SECONDS /
        (positiveCount (sanitisedDurations scenes) : ℚ))
  else 0

/-- The `scaledDurations` of `computeEffectiveDurations`: each positive
duration scaled proportionally so the total becomes the preview cap. -/
def previewScaled (scenes : List Scene) : List ℚ :=
  (sanitisedDurations scenes).map (fun v =>
    if v ≤ 0 then 0
    else v / (sanitisedDurations scenes).sum * PREVIEW_MAX_TOTAL_DURATION_SECONDS)

/-- The `minimums` of `computeEffectiveDurations`: the dynamic minimum for
positive-duration scenes, 0 for the others. -/
def previewMinimums (scenes : List Scene) : List ℚ :=
  (sanitisedDurations scenes).map
    (fun v => if 0 < v then previewDynMin scenes else 0)

/-- The `clamped` list of `computeEffectiveDurations`: scaled durations
raised to their minimums. -/
def previewClamped (scenes : List Scene) : List ℚ :=
  List.zipWith (fun s m => if m = 0 then 0 else max m s)
    (previewScaled scenes) (previewMinimums scenes)

/-- `computeEffectiveDurations` from the render-timing module (its local
bindings `sanitisedDurations`, `scaledDurations`, `dynamicMinimum`,
`minimums` and `clamped` are the named definitions above). -/
def computeEffectiveDurations (scenes : List Scene) (mode : RenderMode) :
    List ℚ :=
  if mode ≠ .preview then sanitisedDurations scenes
  else if scenes = [] then []
  else if (sanitisedDurations scenes).sum ≤ 0 then
    List.replicate scenes.length 0
  else if (sanitisedDurations scenes).sum
      ≤ PREVIEW_MAX_TOTAL_DURATION_SECONDS then sanitisedDurations scenes
  else
    clampDurationsWithMinimums (previewClamped scenes)
      (previewMinimums scenes) PREVIEW_MAX_TOTAL_DURATION_SECONDS

/-- `SceneRenderPlanItem` from the render-timing module. -/
structure SceneRenderPlanItem where
  scene : Scene
  durationSeconds : ℚ
  frameCount : ℤ
deriving DecidableEq

/-- `buildRenderPlan` from the render-timing module: every scene gets its
effective duration (with a mode-specific fallback when that rounds to ~0)
and a frame count `max(1, ceil(duration * fps))`. -/
def buildRenderPlan (scenes : List Scene) (fps : ℚ) (mode : RenderMode) :
    List SceneRenderPlanItem :=
  let eff := computeEffectiveDurations scenes mode
  scenes.enum.map (fun p =>
    let durationSecondsRaw := eff.getD p.1 0
    let safeDurationSeconds :=
      if 1 / 100 < durationSecondsRaw then durationSecondsRaw
      else if mode = .preview then PREVIEW_MIN_SCENE_DURATION_SECONDS
      else max (6 / 5) (1 / fps)
    { scene := p.2
      durationSeconds := safeDurationSeconds
      frameCount := max 1 ⌈safeDurationSeconds * fps⌉ })

/-- A fixed Ken Burns configuration for concrete scenes. -/
def demoKenBurns : KenBurnsConfig := ⟨23 / 20, 0, 0, 1 / 2, 1 / 2, 5⟩

/-- A concrete scene with a given id and duration. -/
def demoScene (i : String) (d : JSNum) : Scene :=
  ⟨i, "text", ["kw"], "prompt", d, "url", .image, demoKenBurns⟩

/-- A single 5-second scene (the download-mode end-to-end scenario). -/
def demoScene5 : Scene := demoScene "solo" (.num 5)

/-- Two 10-second scenes: total 20 s, above the preview cap. -/
def demoScenes2 : List Scene :=
  [demoScene "a" (.num 10), demoScene "b" (.num 10)]

/-- Two scenes summing to 10 s, below the preview cap. -/
def c2Scenes : List Scene :=
  [demoScene "a" (.num 4), demoScene "b" (.num 6)]

/-- A scene whose duration is `NaN`. -/
def badScene : Scene := demoScene "bad" .nan

/-- The plan item produced for `demoScene5` in download mode at 24 fps. -/
def demoPlanItem : SceneRenderPlanItem :=
  { scene := demoScene5, durationSeconds := 5, frameCount := 120 }

/-- Twenty-one scenes, total 30 s, engineered so that after proportional
scaling ten scenes sit 0.0009 above the dynamic minimum 5/7 (within the
loop tolerance, hence not adjustable) and eleven sit below it; the final
uniform rescale then overshoots the cap by more than `epsilon`. -/
def c1CexScenes : List Scene :=
  List.replicate 10 (demoScene "big" (.num (50063 / 35000))) ++
    List.replicate 11 (demoScene "small" (.num (54937 / 38500)))

/-- `RenderConfig` from progressiveVideoService.ts. -/
structure RenderConfig where
  fps : ℚ
  maxLandscapeWidth : ℚ
  maxPortraitHeight : ℚ
  bitrate : ℚ
deriving DecidableEq

/-- The `RENDER_CONFIG` base table, preview row. -/
def RENDER_CONFIG_preview : RenderConfig := ⟨15, 854, 960, 1200000⟩

/-- The `RENDER_CONFIG` base table, download row. -/
def RENDER_CONFIG_download : RenderConfig := ⟨24, 1280, 1280, 3500000⟩

/-- `getRenderConfig`. -/
def getRenderConfig : RenderMode → RenderConfig
  | .preview => RENDER_CONFIG_preview
  | .download => RENDER_CONFIG_download

/-- JavaScript `Math.round`: round half toward positive infinity. -/
def jsRound (q : ℚ) : ℤ := ⌊q + 1 / 2⌋

/-- `computeTotalSceneDurationSeconds`: total of the finite scene durations
clipped below at 0. -/
def computeTotalSceneDurationSeconds (scenes : List Scene) : ℚ :=
  scenes.foldl (fun total s => total + max 0 s.duration.rawValue) 0

/-- `resolveOptimizedRenderConfig`: the mode base table shrunk by the frame
budget and the long-form/ultra-long-form thresholds, with fps and bitrate
floors. -/
def resolveOptimizedRenderConfig (mode : RenderMode) (scenes : List Scene) :
    RenderConfig :=
  let baseConfig := getRenderConfig mode
  let totalDuration := computeTotalSceneDurationSeconds scenes
  if totalDuration ≤ 0 then baseConfig
  else
    let frameBudget : ℚ := if mode = .download then 4500 else 3000
    let minFps : ℚ := if mode = .download then 8 else 10
    let minBitrate : ℚ := if mode = .download then 900000 else 700000
    let baseTotalFrames := totalDuration * baseConfig.fps
    let c1 : RenderConfig :=
      if frameBudget < baseTotalFrames then
        let allowedFpsRaw : ℚ := (⌊frameBudget / totalDuration⌋ : ℤ)
        let allowedFps := max minFps (min baseConfig.fps allowedFpsRaw)
        if allowedFps < baseConfig.fps then
          { baseConfig with
            fps := max 4 allowedFps
            bitrate := max minBitrate
              ((jsRound (baseConfig.bitrate * (max 4 allowedFps / baseConfig.fps)) : ℤ) : ℚ) }
        else baseConfig
      else baseConfig
    let c2 : RenderConfig :=
      if 120 < totalDuration then
        { c1 with
          maxLandscapeWidth := min baseConfig.maxLandscapeWidth 1120
          maxPortraitHeight := min baseConfig.maxPortraitHeight 1120
          bitrate := min c1.bitrate 3000000 }
      else c1
    let c3 : RenderConfig :=
      if 300 < totalDuration then
        { c2 with
          maxLandscapeWidth := min c2.maxLandscapeWidth 960
          maxPortraitHeight := min c2.maxPortraitHeight 960
          bitrate := min c2.bitrate 2200000 }
      else c2
    { c3 with
      bitrate := max minBitrate c3.bitrate
      fps := max 4 (min baseConfig.fps c3.fps) }

/-- `ACCENT_COLOR_PALETTE`. -/
def ACCENT_COLOR_PALETTE : List String :=
  ["#FF5F6D", "#FF9966", "#FDCB6E", "#54A0FF", "#5F27CD",
   "#48DB71", "#FF6B6B", "#1B9CFC", "#FF9FF3", "#10AC84"]

/-- Wrap an integer to the signed 32-bit range (the `|= 0` coercion). -/
def toInt32 (n : ℤ) : ℤ := (n + 2 ^ 31) % 2 ^ 32 - 2 ^ 31

/-- One character step of `sceneAccentHash`:
`hash = (hash << 5) - hash + code`, wrapped back to a signed 32-bit
integer; the shift itself also operates on 32-bit integers. -/
def sceneAccentHashStep (hash : ℤ) (c : Char) : ℤ :=
  toInt32 (toInt32 (hash * 32) - hash + (c.toNat : ℤ))

/-- `sceneAccentHash`: the shift-and-subtract string hash over the code
units of the key (for the basic-plane characters used here a UTF-16 code
unit is the code point). -/
def sceneAccentHash (value : String) : ℤ :=
  value.data.foldl sceneAccentHashStep 0

/-- `computeSceneAccentColor`: the palette entry selected by the hash of
the key `id|keywords.join('-')|imagePrompt|sceneText`. -/
def computeSceneAccentColor (scene : Scene) : String :=
  let key := scene.id ++ "|" ++ String.intercalate "-" scene.keywords ++ "|"
      ++ scene.imagePrompt ++ "|" ++ scene.sceneText
  ACCENT_COLOR_PALETTE.getD
    ((sceneAccentHash key).natAbs % ACCENT_COLOR_PALETTE.length) ""

/-- `IMAGE_LOAD_RETRIES` (2 additional attempts). -/
def IMAGE_LOAD_RETRIES : ℕ := 2

/-- `INITIAL_RETRY_DELAY_MS` (300 ms). -/
def INITIAL_RETRY_DELAY_MS : ℚ := 300

/-- Outcome of a single load attempt for a visual source: success, a
non-abort load failure, or an abort (the cancellation signal observed by
`throwIfAborted` or by the abort listener). -/
inductive AttemptOutcome where
  | ok : AttemptOutcome
  | fail : AttemptOutcome
  | abort : AttemptOutcome
deriving DecidableEq

/-- Observable events of one `loadImageWithRetries` call. -/
inductive LoadEvent where
  | attempt (k : ℕ) : LoadEvent
  | backoffSleep (ms : ℚ) : LoadEvent
deriving DecidableEq

/-- Result of one `loadImageWithRetries` call. -/
inductive LoadResult where
  | image : LoadResult
  | fallbackImage (accentColor : String) : LoadResult
  | abortError : LoadResult
deriving DecidableEq

/-- The retry loop of `loadImageWithRetries`, over an abstract environment
giving the outcome of each attempt: an abort rejection is rethrown
immediately (no backoff sleep after cancellation); a non-abort failure
sleeps `INITIAL_RETRY_DELAY_MS * 2^attempt` ms and retries while retries
remain; after exhausting all retries the loader yields the stylised
fallback image, whose accent color is `computeSceneAccentColor`. -/
def loadAttemptLoop (scene : Scene) (outcomes : ℕ → AttemptOutcome) :
    ℕ → ℕ → List LoadEvent × LoadResult
  | k, remaining =>
    match outcomes k with
    | .ok => ([.attempt k], .image)
    | .abort => ([.attempt k], .abortError)
    | .fail =>
      match remaining with
      | 0 => ([.attempt k], .fallbackImage (computeSceneAccentColor scene))
      | r + 1 =>
        let rest := loadAttemptLoop scene outcomes (k + 1) r
        (.attempt k :: .backoffSleep (INITIAL_RETRY_DELAY_MS * 2 ^ k) :: rest.1,
          rest.2)

/-- `loadImageWithRetries`: attempts `0 .. IMAGE_LOAD_RETRIES`. -/
def loadImageWithRetries (scene : Scene) (outcomes : ℕ → AttemptOutcome) :
    List LoadEvent × LoadResult :=
  loadAttemptLoop scene outcomes 0 IMAGE_LOAD_RETRIES

/-- The container formats negotiated by the backends. -/
inductive VideoFormat where
  | webm : VideoFormat
  | mp4 : VideoFormat
deriving DecidableEq

/-- `GeneratedVideoResult` (the blob itself is abstracted away). -/
structure GeneratedVideoResult where
  mimeType : String
  format : VideoFormat
deriving DecidableEq

/-- The rejection kinds visible at the orchestrator boundary: the
distinguished AbortError kind, or any other failure. -/
inductive RenderErrorKind where
  | abortError : RenderErrorKind
  | failure (message : String) : RenderErrorKind
deriving DecidableEq

/-- Outcome of one backend attempt: the attempt promise either resolves
with a result or rejects with an error kind. -/
abbrev BackendOutcome : Type := Except RenderErrorKind GeneratedVideoResult

/-- The two encoding backends. -/
inductive BackendKind where
  | webcodecs : BackendKind
  | mediaRecorder : BackendKind
deriving DecidableEq

/-- Trace-level model of `generateWebMFromScenes`: the config is computed
once by `resolveOptimizedRenderConfig`; when the WebCodecs capability probe
(`hasWebCodecsSupport`) succeeds, the WebCodecs backend is attempted first
and on any rejection (the `.catch` is unconditional, AbortError included)
the MediaRecorder backend is attempted with the same config; without the
capability the MediaRecorder backend runs directly.  The result is the
ordered list of backend attempts, each with the config it received, and the
outcome of the returned promise. -/
def generateWebMFromScenes (support : Bool) (mode : RenderMode)
    (scenes : List Scene) (wc mr : RenderConfig → BackendOutcome) :
    List (BackendKind × RenderConfig) × BackendOutcome :=
  let config := resolveOptimizedRenderConfig mode scenes
  if support then
    match wc config with
    | .ok r => ([(.webcodecs, config)], .ok r)
    | .error _ =>
        ([(.webcodecs, config), (.mediaRecorder, config)], mr config)
  else ([(.mediaRecorder, config)], mr config)

/-- Model of the entry of `generateWebMWithMediaRecorder` with respect to
the cancellation signal: when the signal is already aborted, the first
`throwIfAborted` inside the preload workers rejects the whole call with an
AbortError before any rendering work is done. -/
def mediaRecorderEntry (sigAborted : Bool)
    (behavior : RenderConfig → BackendOutcome)
    (config : RenderConfig) : BackendOutcome :=
  if sigAborted then .error .abortError else behavior config

/-- `updateOverallProgress` (identical in both backends): the callback
receives `min(0.99, baseProgress + stageProgress * stageWeight)`. -/
def updateOverallProgress (stageProgress stageWeight baseProgress : ℚ) : ℚ :=
  min (99 / 100) (baseProgress + stageProgress * stageWeight)

/-- The progress values emitted during `preloadAllImages` over `n` scenes,
seen through the preload stage (weight 0.2, base 0): the initial 0, one
value `completed/n` per completed scene, and the final completion value. -/
def preloadEmissions (n : ℕ) : List ℚ :=
  updateOverallProgress 0 (1 / 5) 0
    :: (((List.range n).map fun (c : ℕ) =>
          updateOverallProgress (((c : ℚ) + 1) / (n : ℚ)) (1 / 5) 0)
        ++ [updateOverallProgress 1 (1 / 5) 0])

/-- The values taken by the running counter `totalFramesRenderedOverall`
before each frame of the nested scene/frame render loops, in order. -/
def planFrameIndices : List SceneRenderPlanItem → ℕ → List ℕ
  | [], _ => []
  | it :: rest, done =>
      ((List.range it.frameCount.toNat).map fun f => done + f)
        ++ planFrameIndices rest (done + it.frameCount.toNat)

/-- `totalFramesToRenderOverall`: the total frame count of a plan. -/
def planTotalFrames (plan : List SceneRenderPlanItem) : ℕ :=
  (plan.map fun it => it.frameCount.toNat).sum

/-- The encode-stage progress emissions (weight 0.79, base 0.2): after the
frame with counter `t` the callback receives the fraction `(t+1)/total`. -/
def encodeEmissions (plan : List SceneRenderPlanItem) : List ℚ :=
  (planFrameIndices plan 0).map fun (t : ℕ) =>
    updateOverallProgress (((t : ℚ) + 1) / (planTotalFrames plan : ℚ))
      (79 / 100) (1 / 5)

/-- The full progress trace of one successful backend attempt (either
backend): preload stage, encode stage, and the completion value 1. -/
def backendProgressTrace (scenes : List Scene) (fps : ℚ)
    (mode : RenderMode) : List ℚ :=
  preloadEmissions scenes.length
    ++ encodeEmissions (buildRenderPlan scenes fps mode) ++ [1]

/-- The progress trace of a WebCodecs attempt that fails after `k` encoded
frames: the preload emissions and the first `k` encode emissions. -/
def wcFailedProgressTrace (scenes : List Scene) (fps : ℚ) (mode : RenderMode)
    (k : ℕ) : List ℚ :=
  preloadEmissions scenes.length
    ++ (encodeEmissions (buildRenderPlan scenes fps mode)).take k

/-- The progress values delivered across one `generateWebMFromScenes` call
in which the WebCodecs attempt fails after `k` frames and the MediaRecorder
fallback then completes: the fallback re-runs the entire render through the
same callback, so its full trace follows the failed prefix. -/
def fallbackCallProgressTrace (scenes : List Scene) (fps : ℚ)
    (mode : RenderMode) (k : ℕ) : List ℚ :=
  wcFailedProgressTrace scenes fps mode k ++ backendProgressTrace scenes fps mode

/-- `frameDurationUS = Math.round(1_000_000 / config.fps)`. -/
def frameDurationUS (fps : ℚ) : ℤ := jsRound (1000000 / fps)

/-- The timestamps in microseconds of the frames handed to the encoder by
the WebCodecs loop: `totalFramesRenderedOverall * frameDurationUS`. -/
def wcFrameTimestamps (scenes : List Scene) (fps : ℚ)
    (mode : RenderMode) : List ℤ :=
  (planFrameIndices (buildRenderPlan scenes fps mode) 0).map
    fun (t : ℕ) => ((t : ℕ) : ℤ) * frameDurationUS fps

/-- A fixed successful render result for concrete orchestrator runs. -/
def demoResult : GeneratedVideoResult := ⟨"video/webm", .webm⟩

/-- A WebCodecs behavior that always fails mid-render. -/
def demoFailWc : RenderConfig → BackendOutcome :=
  fun _ => .error (.failure "encoder crashed")

/-- A MediaRecorder behavior that always succeeds. -/
def demoOkMr : RenderConfig → BackendOutcome := fun _ => .ok demoResult

/-- One short preview scene for the progress-trace counterexample. -/
def c7Scenes : List Scene := [demoScene "p" (.num 1)]

/-- Two scenes that share an id but differ in caption text. -/
def c8SceneA : Scene := ⟨"s", "a", [], "", .num 5, "u", .image, demoKenBurns⟩

/-- Two scenes that share an id but differ in caption text. -/
def c8SceneB : Scene := ⟨"s", "b", [], "", .num 5, "u", .image, demoKenBurns⟩

/-- One short preview scene for the timestamp counterexample. -/
def c9Scenes : List Scene := [demoScene "p" (.num 1)]

/-! ### Lemmas and claim theorems -/

theorem clampEpsilon_pos : 0 < clampEpsilon := by norm_num [clampEpsilon]

theorem stepReduction_nonneg (dec a m : ℚ) : 0 ≤ stepReduction dec a m := by
  unfold stepReduction
  split_ifs with h1 h2 h3
  · exact le_refl 0
  · exact le_refl 0
  · exact le_of_not_le h3
  · exact le_refl 0

theorem stepReduction_le (dec a m : ℚ) : stepReduction dec a m ≤ max (a - m) 0 := by
  unfold stepReduction
  split_ifs with h1 h2 h3
  · exact le_max_right _ _
  · exact le_max_right _ _
  · exact le_trans (min_le_left _ _) (le_max_left _ _)
  · exact le_max_right _ _

theorem le_sub_stepReduction {dec a m : ℚ} (h : m ≤ a) :
    m ≤ a - stepReduction dec a m := by
  have := stepReduction_le dec a m
  have hmax : max (a - m) 0 = a - m := max_eq_left (by linarith)
  rw [hmax] at this
  linarith

theorem sub_stepReduction_le (dec a m : ℚ) : a - stepReduction dec a m ≤ a := by
  have := stepReduction_nonneg dec a m
  linarith

theorem stepReduction_of_small {dec a m : ℚ} (h : ¬ clampEpsilon < a - m) :
    stepReduction dec a m = 0 := by
  unfold stepReduction
  rw [if_neg h]

theorem stepReduction_of_adjustable {dec a m : ℚ} (hdec : 0 < dec)
    (h : clampEpsilon < a - m) : stepReduction dec a m = min (a - m) dec := by
  have hs : 0 < a - m := lt_trans clampEpsilon_pos h
  unfold stepReduction
  rw [if_pos h, if_neg (by linarith), if_neg (by simp [lt_min hs hdec, not_le.mpr])]

theorem clampPass_length (mins : List ℚ) (dec : ℚ) (adj : List ℚ) :
    (clampPass mins dec adj).length = min adj.length mins.length := by
  simp [clampPass]

theorem clampPass_getElem (mins : List ℚ) (dec : ℚ) (adj : List ℚ)
    (i : ℕ) (h : i < (clampPass mins dec adj).length)
    (h1 : i < adj.length) (h2 : i < mins.length) :
    (clampPass mins dec adj)[i] = adj[i] - stepReduction dec adj[i] mins[i] := by
  simp [clampPass, List.getElem_zipWith]

theorem clampPass_sum :
    ∀ (adj mins : List ℚ) (dec : ℚ), adj.length = mins.length →
      (clampPass mins dec adj).sum = adj.sum - clampConsumed mins dec adj
  | [], [], dec, _ => by simp [clampPass, clampConsumed]
  | [], _ :: _, _, h => by simp at h
  | _ :: _, [], _, h => by simp at h
  | a :: as, m :: ms, dec, h => by
    have ih := clampPass_sum as ms dec (by simpa using h)
    simp only [clampPass, clampConsumed, List.zipWith_cons_cons, List.sum_cons] at ih ⊢
    linarith

theorem clampConsumed_nonneg (mins : List ℚ) (dec : ℚ) (adj : List ℚ) :
    0 ≤ clampConsumed mins dec adj := by
  unfold clampConsumed
  apply List.sum_nonneg
  intro x hx
  rw [List.mem_iff_getElem] at hx
  obtain ⟨i, hi, rfl⟩ := hx
  rw [List.getElem_zipWith]
  exact stepReduction_nonneg _ _ _

theorem adjustableCount_le_length (mins : List ℚ) (adj : List ℚ) :
    adjustableCount mins adj ≤ adj.length := by
  unfold adjustableCount
  exact le_trans (List.countP_le_length _)
    (by rw [List.length_zipWith]; exact inf_le_left)

theorem countP_ite_head_le (dec a m : ℚ) :
    (if clampEpsilon < a - stepReduction dec a m - m then (1 : ℕ) else 0)
      ≤ (if clampEpsilon < a - m then 1 else 0) := by
  by_cases hc : clampEpsilon < a - stepReduction dec a m - m
  · have hred := stepReduction_nonneg dec a m
    have hcc : clampEpsilon < a - m := by linarith
    simp [hc, hcc]
  · simp [hc]

theorem adjustableCount_clampPass_le :
    ∀ (adj mins : List ℚ) (dec : ℚ), adj.length = mins.length →
      adjustableCount mins (clampPass mins dec adj) ≤ adjustableCount mins adj
  | [], [], _, _ => le_refl _
  | [], _ :: _, _, h => by simp at h
  | _ :: _, [], _, h => by simp at h
  | a :: as, m :: ms, dec, h => by
    have ih := adjustableCount_clampPass_le as ms dec (by simpa using h)
    simp only [adjustableCount, clampPass, List.zipWith_cons_cons,
      List.countP_cons, decide_eq_true_eq] at ih ⊢
    have hhead := countP_ite_head_le dec a m
    omega

theorem adjustableCount_clampPass_lt :
    ∀ (adj mins : List ℚ) (dec : ℚ) (i : ℕ), adj.length = mins.length → 0 < dec →
      ∀ (h1 : i < adj.length) (h2 : i < mins.length),
        clampEpsilon < adj[i] - mins[i] → adj[i] - mins[i] ≤ dec →
        adjustableCount mins (clampPass mins dec adj) < adjustableCount mins adj
  | [], _, _, i, _, _, h1, _, _, _ => absurd h1 (Nat.not_lt_zero i)
  | _ :: _, [], _, _, h, _, _, _, _, _ => by simp at h
  | a :: as, m :: ms, dec, 0, h, hdec, h1, h2, hadj, hsmall => by
    have hred : stepReduction dec a m = a - m := by
      rw [stepReduction_of_adjustable hdec (by simpa using hadj)]
      exact min_eq_left (by simpa using hsmall)
    have ihle := adjustableCount_clampPass_le as ms dec (by simpa using h)
    simp only [adjustableCount, clampPass, List.zipWith_cons_cons,
      List.countP_cons, decide_eq_true_eq] at ihle ⊢
    have hc : ¬ clampEpsilon < a - stepReduction dec a m - m := by
      rw [hred]
      have := clampEpsilon_pos
      intro hcontra
      linarith
    have hc2 : clampEpsilon < a - m := by simpa using hadj
    simp only [hc, hc2, if_true, if_false]
    omega
  | a :: as, m :: ms, dec, i + 1, h, hdec, h1, h2, hadj, hsmall => by
    have ih := adjustableCount_clampPass_lt as ms dec i (by simpa using h) hdec
      (by simpa using h1) (by simpa using h2) (by simpa using hadj)
      (by simpa using hsmall)
    have hhead := countP_ite_head_le dec a m
    simp only [adjustableCount, clampPass, List.zipWith_cons_cons,
      List.countP_cons, decide_eq_true_eq] at ih ⊢
    omega

theorem clampConsumed_of_allBig :
    ∀ (adj mins : List ℚ) (dec : ℚ), adj.length = mins.length → 0 < dec →
      (∀ (i : ℕ) (h1 : i < adj.length) (h2 : i < mins.length),
        clampEpsilon < adj[i] - mins[i] → dec < adj[i] - mins[i]) →
      clampConsumed mins dec adj = (adjustableCount mins adj : ℚ) * dec
  | [], [], dec, _, _, _ => by simp [clampConsumed, adjustableCount]
  | [], _ :: _, _, h, _, _ => by simp at h
  | _ :: _, [], _, h, _, _ => by simp at h
  | a :: as, m :: ms, dec, h, hdec, hall => by
    have ih := clampConsumed_of_allBig as ms dec (by simpa using h)
      hdec
      (fun i h1 h2 hgt => by
        simpa using hall (i + 1) (by simpa using h1) (by simpa using h2)
          (by simpa using hgt))
    simp only [clampConsumed, adjustableCount, List.zipWith_cons_cons,
      List.sum_cons, List.countP_cons, decide_eq_true_eq] at ih ⊢
    by_cases hc : clampEpsilon < a - m
    · have hbig := hall 0 (by simp) (by simp) (by simpa using hc)
      have hred : stepReduction dec a m = dec := by
        rw [stepReduction_of_adjustable hdec hc]
        exact min_eq_right (le_of_lt (by simpa using hbig))
      rw [ih, hred]
      simp only [hc, if_true]
      push_cast
      ring
    · rw [stepReduction_of_small hc, ih]
      simp only [hc, if_false]
      push_cast
      ring

theorem clampEpsilon_lt_clampConsumed (adj mins : List ℚ) (excess : ℚ)
    (hlen : adj.length = mins.length) (hex : clampEpsilon < excess)
    (hk : adjustableCount mins adj ≠ 0) :
    clampEpsilon <
      clampConsumed mins (excess / (adjustableCount mins adj : ℚ)) adj := by
  set k : ℕ := adjustableCount mins adj with hkdef
  have hkpos : (0 : ℚ) < (k : ℚ) := by
    have : 0 < k := Nat.pos_of_ne_zero hk
    exact_mod_cast this
  have hdec : 0 < excess / (k : ℚ) :=
    div_pos (lt_trans clampEpsilon_pos hex) hkpos
  by_cases hall : ∀ (i : ℕ) (h1 : i < adj.length) (h2 : i < mins.length),
      clampEpsilon < adj[i] - mins[i] → excess / (k : ℚ) < adj[i] - mins[i]
  · rw [clampConsumed_of_allBig adj mins _ hlen hdec hall, ← hkdef,
      mul_div_cancel₀ _ (ne_of_gt hkpos)]
    exact hex
  · push_neg at hall
    obtain ⟨i, h1, h2, hadj, hsmall⟩ := hall
    have hred : stepReduction (excess / (k : ℚ)) adj[i] mins[i]
        = adj[i] - mins[i] := by
      rw [stepReduction_of_adjustable hdec hadj]
      exact min_eq_left hsmall
    have hzlen : i < (List.zipWith
        (fun a m => stepReduction (excess / (k : ℚ)) a m) adj mins).length := by
      rw [List.length_zipWith]
      exact lt_min h1 h2
    have hmem := List.getElem_mem hzlen
    have hval : (List.zipWith
        (fun a m => stepReduction (excess / (k : ℚ)) a m) adj mins)[i]
        = adj[i] - mins[i] := by
      rw [List.getElem_zipWith]
      exact hred
    have hle : adj[i] - mins[i] ≤ clampConsumed mins (excess / (k : ℚ)) adj := by
      rw [← hval]
      apply List.single_le_sum _ _ hmem
      intro x hx
      rw [List.mem_iff_getElem] at hx
      obtain ⟨j, hj, rfl⟩ := hx
      rw [List.getElem_zipWith]
      exact stepReduction_nonneg _ _ _
    exact lt_of_lt_of_le hadj hle

theorem zipWith_sub_sum :
    ∀ (adj mins : List ℚ), adj.length = mins.length →
      (List.zipWith (fun a m => a - m) adj mins).sum = adj.sum - mins.sum
  | [], [], _ => by simp
  | [], _ :: _, h => by simp at h
  | _ :: _, [], h => by simp at h
  | a :: as, m :: ms, h => by
    have ih := zipWith_sub_sum as ms (by simpa using h)
    simp only [List.zipWith_cons_cons, List.sum_cons, ih]
    ring

theorem sum_le_of_adjustableCount_zero (adj mins : List ℚ)
    (hlen : adj.length = mins.length)
    (h0 : adjustableCount mins adj = 0) :
    adj.sum ≤ mins.sum + (adj.length : ℚ) * clampEpsilon := by
  unfold adjustableCount at h0
  rw [List.countP_eq_zero] at h0
  have hsum : (List.zipWith (fun a m => a - m) adj mins).sum
      ≤ ((List.zipWith (fun a m => a - m) adj mins).length : ℚ) * clampEpsilon := by
    have := List.sum_le_card_nsmul
      (List.zipWith (fun a m => a - m) adj mins) clampEpsilon ?hle
    · simpa [nsmul_eq_mul] using this
    case hle =>
      intro x hx
      have := h0 x hx
      simp only [decide_eq_true_eq] at this
      exact le_of_not_lt this
  rw [zipWith_sub_sum adj mins hlen] at hsum
  rw [List.length_zipWith, hlen, min_self] at hsum
  rw [hlen]
  linarith

theorem clampPass_getD (mins : List ℚ) (dec : ℚ) (adj : List ℚ) (i : ℕ)
    (h1 : i < adj.length) (h2 : i < mins.length) :
    (clampPass mins dec adj).getD i 0
      = adj.getD i 0 - stepReduction dec (adj.getD i 0) (mins.getD i 0) := by
  have hc : i < (clampPass mins dec adj).length := by
    rw [clampPass_length]
    exact lt_min h1 h2
  rw [List.getD_eq_getElem _ _ hc, List.getD_eq_getElem _ _ h1,
    List.getD_eq_getElem _ _ h2]
  exact clampPass_getElem mins dec adj i hc h1 h2

/-- Structural invariant of the redistribution loop: the adjusted list keeps
its length, stays pointwise between the minimums and its initial value, and
its sum stays below the running `total`. -/
theorem clampLoop_invariant (mins : List ℚ) (target : ℚ) :
    ∀ (fuel : ℕ) (total : ℚ) (adj : List ℚ),
      adj.length = mins.length →
      (∀ i : ℕ, i < adj.length → mins.getD i 0 ≤ adj.getD i 0) →
      adj.sum ≤ total →
      (clampLoop mins target fuel total adj).2.length = adj.length ∧
      (∀ i : ℕ, i < adj.length →
        mins.getD i 0 ≤ (clampLoop mins target fuel total adj).2.getD i 0 ∧
        (clampLoop mins target fuel total adj).2.getD i 0 ≤ adj.getD i 0) ∧
      (clampLoop mins target fuel total adj).2.sum
        ≤ (clampLoop mins target fuel total adj).1 := by
  intro fuel
  induction fuel with
  | zero =>
    intro total adj hlen hlow hsum
    refine ⟨rfl, ?_, hsum⟩
    intro i h1
    exact ⟨hlow i h1, le_refl _⟩
  | succ fuel ih =>
    intro total adj hlen hlow hsum
    rw [clampLoop]
    by_cases hcond : clampEpsilon < total - target
    · rw [if_pos hcond]
      simp only
      by_cases hk : adjustableCount mins adj = 0
      · rw [if_pos hk]
        refine ⟨rfl, ?_, hsum⟩
        intro i h1
        exact ⟨hlow i h1, le_refl _⟩
      · rw [if_neg hk]
        set dec : ℚ := (total - target) / ((adjustableCount mins adj : ℚ)) with hdec
        have hlen' : (clampPass mins dec adj).length = adj.length := by
          rw [clampPass_length, hlen, min_self]
        have hlow' : ∀ i : ℕ, i < (clampPass mins dec adj).length →
            mins.getD i 0 ≤ (clampPass mins dec adj).getD i 0 := by
          intro i h1
          have hia : i < adj.length := by rw [← hlen']; exact h1
          have him : i < mins.length := by rw [← hlen]; exact hia
          rw [clampPass_getD mins dec adj i hia him]
          exact le_sub_stepReduction (hlow i hia)
        have hup' : ∀ i : ℕ, i < adj.length →
            (clampPass mins dec adj).getD i 0 ≤ adj.getD i 0 := by
          intro i h1
          have him : i < mins.length := by rw [← hlen]; exact h1
          rw [clampPass_getD mins dec adj i h1 him]
          exact sub_stepReduction_le _ _ _
        have hsum' : (clampPass mins dec adj).sum
            = adj.sum - clampConsumed mins dec adj :=
          clampPass_sum adj mins dec hlen
        by_cases hcons : clampConsumed mins dec adj ≤ clampEpsilon
        · rw [if_pos hcons]
          refine ⟨hlen', ?_, ?_⟩
          · intro i h1
            refine ⟨hlow' i (by rw [hlen']; exact h1), hup' i h1⟩
          · have := clampConsumed_nonneg mins dec adj
            simp only
            rw [hsum']
            linarith
        · rw [if_neg hcons]
          have hrec := ih (total - clampConsumed mins dec adj)
            (clampPass mins dec adj)
            (by rw [hlen', hlen])
            (fun i h1 => hlow' i h1)
            (by rw [hsum']; linarith)
          obtain ⟨rlen, rpt, rsum⟩ := hrec
          refine ⟨by rw [rlen, hlen'], ?_, rsum⟩
          intro i h1
          obtain ⟨rl, ru⟩ := rpt i (by rw [hlen']; exact h1)
          exact ⟨rl, le_trans ru (hup' i h1)⟩
    · rw [if_neg hcond]
      refine ⟨rfl, ?_, hsum⟩
      intro i h1
      exact ⟨hlow i h1, le_refl _⟩

/-- Exit analysis of the redistribution loop: with enough fuel (more than
the number of adjustable entries) the loop terminates either with the
running total within `epsilon` of the target or with no adjustable entry
left. -/
theorem clampLoop_exit (mins : List ℚ) (target : ℚ) :
    ∀ (fuel : ℕ) (total : ℚ) (adj : List ℚ),
      adj.length = mins.length →
      adjustableCount mins adj < fuel →
      (clampLoop mins target fuel total adj).1 ≤ target + clampEpsilon ∨
      adjustableCount mins (clampLoop mins target fuel total adj).2 = 0 := by
  intro fuel
  induction fuel with
  | zero =>
    intro total adj _ hfuel
    exact absurd hfuel (Nat.not_lt_zero _)
  | succ fuel ih =>
    intro total adj hlen hfuel
    rw [clampLoop]
    by_cases hcond : clampEpsilon < total - target
    · rw [if_pos hcond]
      simp only
      by_cases hk : adjustableCount mins adj = 0
      · rw [if_pos hk]
        exact Or.inr hk
      · rw [if_neg hk]
        set dec : ℚ := (total - target) / ((adjustableCount mins adj : ℚ)) with hdec
        have hconsbig := clampEpsilon_lt_clampConsumed adj mins (total - target)
          hlen hcond hk
        rw [← hdec] at hconsbig
        rw [if_neg (not_le.mpr hconsbig)]
        have hkpos : (0 : ℚ) < ((adjustableCount mins adj : ℕ) : ℚ) := by
          exact_mod_cast Nat.pos_of_ne_zero hk
        have hdecpos : 0 < dec := by
          rw [hdec]
          exact div_pos (by linarith [clampEpsilon_pos]) hkpos
        by_cases hall : ∀ (i : ℕ) (h1 : i < adj.length) (h2 : i < mins.length),
            clampEpsilon < adj[i] - mins[i] → dec < adj[i] - mins[i]
        · have hcons : clampConsumed mins dec adj = total - target := by
            rw [clampConsumed_of_allBig adj mins dec hlen hdecpos hall, hdec,
              mul_div_cancel₀ _ (ne_of_gt hkpos)]
          rw [hcons]
          have htt : total - (total - target) = target := by ring
          rw [htt]
          cases fuel with
          | zero =>
            exfalso
            have : adjustableCount mins adj = 0 := by omega
            exact hk this
          | succ fuel2 =>
            rw [clampLoop]
            rw [if_neg (by
              have := clampEpsilon_pos
              intro hcontra
              simp only [sub_self] at hcontra
              linarith)]
            exact Or.inl (by linarith [clampEpsilon_pos])
        · push_neg at hall
          obtain ⟨i, h1, h2, hadj, hsmall⟩ := hall
          have hlt := adjustableCount_clampPass_lt adj mins dec i hlen hdecpos
            h1 h2 hadj hsmall
          exact ih (total - clampConsumed mins dec adj) (clampPass mins dec adj)
            (by rw [clampPass_length, hlen, min_self]) (by omega)
    · rw [if_neg hcond]
      exact Or.inl (le_of_not_lt (by intro hcontra; exact hcond (by linarith)))

theorem rescale_getD (adj mins : List ℚ) (s : ℚ) (i : ℕ)
    (h1 : i < adj.length) (h2 : i < mins.length) :
    (List.zipWith (fun a m => max m (a * s)) adj mins).getD i 0
      = max (mins.getD i 0) (adj.getD i 0 * s) := by
  have hc : i < (List.zipWith (fun a m => max m (a * s)) adj mins).length := by
    rw [List.length_zipWith]
    exact lt_min h1 h2
  rw [List.getD_eq_getElem _ _ hc, List.getD_eq_getElem _ _ h1,
    List.getD_eq_getElem _ _ h2, List.getElem_zipWith]

theorem rescale_sum_le :
    ∀ (adj mins : List ℚ) (s : ℚ), adj.length = mins.length → s ≤ 1 →
      (∀ i : ℕ, i < adj.length →
        0 ≤ mins.getD i 0 ∧ mins.getD i 0 ≤ adj.getD i 0) →
      (List.zipWith (fun a m => max m (a * s)) adj mins).sum ≤ adj.sum
  | [], [], _, _, _, _ => by simp
  | [], _ :: _, _, h, _, _ => by simp at h
  | _ :: _, [], _, h, _, _ => by simp at h
  | a :: as, m :: ms, s, h, hs, hpt => by
    have hhead := hpt 0 (by simp)
    simp only [List.getD_cons_zero] at hhead
    have ih := rescale_sum_le as ms s (by simpa using h) hs
      (fun i hi => by simpa using hpt (i + 1) (by simpa using hi))
    simp only [List.zipWith_cons_cons, List.sum_cons]
    have has : a * s ≤ a := by nlinarith [hhead.1, hhead.2]
    have hmax : max m (a * s) ≤ a := max_le hhead.2 has
    linarith

/-- Contract of `clampDurationsWithMinimums`, provided the minimums are
non-negative, sit below the input durations, and sum to at most the target,
and the input is short enough that the iteration cap of the redistribution
loop is never the binding constraint: the result keeps the length, stays
pointwise between the minimums and the input durations, and sums to at most
`target + length * epsilon`. -/
theorem clampDurations_spec (durations mins : List ℚ) (target : ℚ)
    (hlen : durations.length = mins.length)
    (hlow : ∀ i : ℕ, i < durations.length → mins.getD i 0 ≤ durations.getD i 0)
    (hm0 : ∀ i : ℕ, i < durations.length → 0 ≤ mins.getD i 0)
    (hminsum : mins.sum ≤ target)
    (htarget : 0 < target)
    (hfuel : adjustableCount mins durations < 1000) :
    (clampDurationsWithMinimums durations mins target).length
        = durations.length ∧
    (∀ i : ℕ, i < durations.length →
      mins.getD i 0
          ≤ (clampDurationsWithMinimums durations mins target).getD i 0 ∧
      (clampDurationsWithMinimums durations mins target).getD i 0
          ≤ durations.getD i 0) ∧
    (clampDurationsWithMinimums durations mins target).sum
      ≤ target + (durations.length : ℚ) * clampEpsilon := by
  rw [clampDurationsWithMinimums]
  by_cases hnil : durations = []
  · rw [if_pos hnil]
    subst hnil
    refine ⟨rfl, fun i hi => absurd hi (by simp), ?_⟩
    simp only [List.sum_nil, List.length_nil]
    push_cast
    linarith
  · rw [if_neg hnil]
    simp only
    by_cases hpass : durations.sum ≤ target
    · rw [if_pos hpass]
      refine ⟨rfl, fun i hi => ⟨hlow i hi, le_refl _⟩, ?_⟩
      have hn : (0 : ℚ) ≤ (durations.length : ℚ) * clampEpsilon := by
        have := clampEpsilon_pos
        positivity
      linarith
    · rw [if_neg hpass]
      obtain ⟨rlen, rpt, rsum⟩ := clampLoop_invariant mins target 1000
        durations.sum durations hlen hlow (le_refl _)
      have rexit := clampLoop_exit mins target 1000 durations.sum durations
        hlen hfuel
      set r := clampLoop mins target 1000 durations.sum durations with hr
      have hn1 : 1 ≤ durations.length := by
        cases durations with
        | nil => exact absurd rfl hnil
        | cons a as => simp
      have hne : (1 : ℚ) * clampEpsilon ≤ (durations.length : ℚ) * clampEpsilon := by
        have := clampEpsilon_pos
        have hcast : (1 : ℚ) ≤ (durations.length : ℚ) := by exact_mod_cast hn1
        nlinarith
      have hsum2 : r.2.sum ≤ target + (durations.length : ℚ) * clampEpsilon := by
        rcases rexit with hleft | hright
        · have := clampEpsilon_pos
          linarith [rsum]
        · have := sum_le_of_adjustableCount_zero r.2 mins
            (by rw [rlen, hlen]) hright
          rw [rlen, hlen] at this
          rw [← hlen] at this
          linarith
      by_cases hresc : target < r.1
      · rw [if_pos hresc]
        set s : ℚ := target / r.1 with hs
        have hspos : 0 < s := div_pos htarget (lt_trans htarget hresc)
        have hsle : s ≤ 1 := by
          rw [hs]
          rw [div_le_one (lt_trans htarget hresc)]
          exact le_of_lt hresc
        have hptr : ∀ i : ℕ, i < r.2.length →
            0 ≤ mins.getD i 0 ∧ mins.getD i 0 ≤ r.2.getD i 0 := by
          intro i hi
          have hid : i < durations.length := by rw [← rlen]; exact hi
          exact ⟨hm0 i hid, (rpt i hid).1⟩
        refine ⟨?_, ?_, ?_⟩
        · rw [List.length_zipWith, rlen, hlen, min_self, ← hlen]
        · intro i hi
          have hi2 : i < r.2.length := by rw [rlen]; exact hi
          have him : i < mins.length := by rw [← hlen]; exact hi
          rw [rescale_getD r.2 mins s i hi2 him]
          constructor
          · exact le_max_left _ _
          · apply max_le
            · exact hlow i hi
            · have hup := (rpt i hi).2
              have h0a : 0 ≤ r.2.getD i 0 :=
                le_trans (hm0 i hi) (rpt i hi).1
              have : r.2.getD i 0 * s ≤ r.2.getD i 0 := by nlinarith
              linarith
        · have := rescale_sum_le r.2 mins s (by rw [rlen, hlen]) hsle hptr
          linarith
      · rw [if_neg hresc]
        have hr1 : r.1 ≤ target := le_of_not_lt hresc
        refine ⟨by rw [rlen], ?_, ?_⟩
        · intro i hi
          exact (rpt i hi)
        · have hn : (0 : ℚ) ≤ (durations.length : ℚ) * clampEpsilon := by
            have := clampEpsilon_pos
            positivity
          linarith

theorem getD_map_q (f : ℚ → ℚ) (l : List ℚ) (i : ℕ) (h : i < l.length) :
    (l.map f).getD i 0 = f (l.getD i 0) := by
  rw [List.getD_eq_getElem _ _ (by simpa using h), List.getD_eq_getElem _ _ h,
    List.getElem_map]

theorem getD_zipWith_q (f : ℚ → ℚ → ℚ) (l1 l2 : List ℚ) (i : ℕ)
    (h1 : i < l1.length) (h2 : i < l2.length) :
    (List.zipWith f l1 l2).getD i 0 = f (l1.getD i 0) (l2.getD i 0) := by
  have hc : i < (List.zipWith f l1 l2).length := by
    rw [List.length_zipWith]
    exact lt_min h1 h2
  rw [List.getD_eq_getElem _ _ hc, List.getD_eq_getElem _ _ h1,
    List.getD_eq_getElem _ _ h2, List.getElem_zipWith]

theorem sanitiseDuration_nonneg (v : JSNum) : 0 ≤ sanitiseDuration v := by
  cases v with
  | num q =>
    simp only [sanitiseDuration]
    split_ifs with h
    · exact le_refl 0
    · linarith [lt_of_not_le h]
  | nan => exact le_refl 0
  | posInf => exact le_refl 0
  | negInf => exact le_refl 0

theorem sanitisedDurations_length (scenes : List Scene) :
    (sanitisedDurations scenes).length = scenes.length := by
  simp [sanitisedDurations]

theorem clampLoop_length (mins : List ℚ) (target : ℚ) :
    ∀ (fuel : ℕ) (total : ℚ) (adj : List ℚ), adj.length = mins.length →
      (clampLoop mins target fuel total adj).2.length = adj.length := by
  intro fuel
  induction fuel with
  | zero => intro total adj _; rfl
  | succ fuel ih =>
    intro total adj hlen
    rw [clampLoop]
    by_cases hcond : clampEpsilon < total - target
    · rw [if_pos hcond]
      simp only
      by_cases hk : adjustableCount mins adj = 0
      · rw [if_pos hk]
      · rw [if_neg hk]
        set dec : ℚ := (total - target) / ((adjustableCount mins adj : ℚ))
        have hlen' : (clampPass mins dec adj).length = adj.length := by
          rw [clampPass_length, hlen, min_self]
        by_cases hcons : clampConsumed mins dec adj ≤ clampEpsilon
        · rw [if_pos hcons]
          exact hlen'
        · rw [if_neg hcons]
          rw [ih _ _ (by rw [hlen', hlen]), hlen']
    · rw [if_neg hcond]

theorem clampDurationsWithMinimums_length (durations mins : List ℚ)
    (target : ℚ) (hlen : durations.length = mins.length) :
    (clampDurationsWithMinimums durations mins target).length
      = durations.length := by
  rw [clampDurationsWithMinimums]
  by_cases hnil : durations = []
  · rw [if_pos hnil]
  · rw [if_neg hnil]
    simp only
    by_cases hpass : durations.sum ≤ target
    · rw [if_pos hpass]
    · rw [if_neg hpass]
      have hrlen := clampLoop_length mins target 1000 durations.sum durations hlen
      by_cases hresc : target
          < (clampLoop mins target 1000 durations.sum durations).1
      · rw [if_pos hresc, List.length_zipWith, hrlen, hlen, min_self, ← hlen]
      · rw [if_neg hresc, hrlen]

theorem sum_map_ite_pos :
    ∀ (l : List ℚ) (c : ℚ),
      (l.map (fun v => if 0 < v then c else 0)).sum = (positiveCount l : ℚ) * c
  | [], c => by simp [positiveCount]
  | v :: vs, c => by
    have ih := sum_map_ite_pos vs c
    simp only [List.map_cons, List.sum_cons, positiveCount, List.filter_cons] at ih ⊢
    by_cases hv : 0 < v
    · simp only [hv, if_true, decide_eq_true_eq, List.length_cons]
      rw [ih]
      push_cast
      ring
    · simp only [hv, if_false, decide_eq_true_eq]
      rw [ih]
      ring

theorem positiveCount_pos_of_sum_pos (l : List ℚ) (h : 0 < l.sum) :
    0 < positiveCount l := by
  by_contra hc
  push_neg at hc
  have h0 : positiveCount l = 0 := Nat.le_zero.mp hc
  unfold positiveCount at h0
  rw [List.length_eq_zero] at h0
  have hall : ∀ x ∈ l, x ≤ 0 := by
    intro x hx
    by_contra hxc
    push_neg at hxc
    have : x ∈ l.filter (fun v => decide (0 < v)) := by
      rw [List.mem_filter]
      exact ⟨hx, by simpa using hxc⟩
    rw [h0] at this
    exact absurd this (List.not_mem_nil x)
  have hneg : l.sum ≤ 0 := by
    have := List.sum_le_card_nsmul l 0 hall
    simpa using this
  linarith

theorem previewDynMin_nonneg (scenes : List Scene) :
    0 ≤ previewDynMin scenes := by
  rw [previewDynMin]
  split_ifs with h
  · apply le_min
    · norm_num [PREVIEW_MIN_SCENE_DURATION_SECONDS]
    · apply div_nonneg
      · norm_num [PREVIEW_MAX_TOTAL_DURATION_SECONDS]
      · positivity
  · exact le_refl 0

theorem previewMinimums_sum_le (scenes : List Scene) :
    (previewMinimums scenes).sum ≤ PREVIEW_MAX_TOTAL_DURATION_SECONDS := by
  rw [previewMinimums, sum_map_ite_pos]
  by_cases h : 0 < positiveCount (sanitisedDurations scenes)
  · have hcast : (0 : ℚ) < (positiveCount (sanitisedDurations scenes) : ℚ) := by
      exact_mod_cast h
    have hle : previewDynMin scenes ≤
        PREVIEW_MAX_TOTAL_DURATION_SECONDS /
          (positiveCount (sanitisedDurations scenes) : ℚ) := by
      rw [previewDynMin, if_pos h]
      exact min_le_right _ _
    calc (positiveCount (sanitisedDurations scenes) : ℚ) * previewDynMin scenes
        ≤ (positiveCount (sanitisedDurations scenes) : ℚ) *
          (PREVIEW_MAX_TOTAL_DURATION_SECONDS /
            (positiveCount (sanitisedDurations scenes) : ℚ)) := by
          exact mul_le_mul_of_nonneg_left hle (le_of_lt hcast)
      _ = PREVIEW_MAX_TOTAL_DURATION_SECONDS := by
          field_simp
  · have h0 : positiveCount (sanitisedDurations scenes) = 0 := by omega
    rw [h0]
    push_cast
    norm_num [PREVIEW_MAX_TOTAL_DURATION_SECONDS]

theorem previewMinimums_length (scenes : List Scene) :
    (previewMinimums scenes).length = scenes.length := by
  simp [previewMinimums, sanitisedDurations]

theorem previewScaled_length (scenes : List Scene) :
    (previewScaled scenes).length = scenes.length := by
  simp [previewScaled, sanitisedDurations]

theorem previewClamped_length (scenes : List Scene) :
    (previewClamped scenes).length = scenes.length := by
  rw [previewClamped, List.length_zipWith, previewScaled_length,
    previewMinimums_length, min_self]

theorem previewMinimums_getD (scenes : List Scene) (i : ℕ)
    (h : i < scenes.length) :
    (previewMinimums scenes).getD i 0
      = (if 0 < (sanitisedDurations scenes).getD i 0
          then previewDynMin scenes else 0) := by
  rw [previewMinimums, getD_map_q _ _ i (by rw [sanitisedDurations_length]; exact h)]

theorem previewClamped_getD (scenes : List Scene) (i : ℕ)
    (h : i < scenes.length) :
    (previewClamped scenes).getD i 0
      = (if (previewMinimums scenes).getD i 0 = 0 then 0
          else max ((previewMinimums scenes).getD i 0)
            ((previewScaled scenes).getD i 0)) := by
  rw [previewClamped, getD_zipWith_q _ _ _ i
    (by rw [previewScaled_length]; exact h)
    (by rw [previewMinimums_length]; exact h)]

theorem previewMinimums_le_clamped (scenes : List Scene) (i : ℕ)
    (h : i < scenes.length) :
    (previewMinimums scenes).getD i 0 ≤ (previewClamped scenes).getD i 0 := by
  rw [previewClamped_getD scenes i h]
  by_cases hm : (previewMinimums scenes).getD i 0 = 0
  · rw [if_pos hm, hm]
  · rw [if_neg hm]
    exact le_max_left _ _

theorem computeEffectiveDurations_length (scenes : List Scene)
    (mode : RenderMode) :
    (computeEffectiveDurations scenes mode).length = scenes.length := by
  rw [computeEffectiveDurations]
  by_cases hmode : mode ≠ RenderMode.preview
  · rw [if_pos hmode, sanitisedDurations_length]
  · rw [if_neg hmode]
    by_cases hnil : scenes = []
    · rw [if_pos hnil, hnil]
      rfl
    · rw [if_neg hnil]
      by_cases hz : (sanitisedDurations scenes).sum ≤ 0
      · rw [if_pos hz, List.length_replicate]
      · rw [if_neg hz]
        by_cases hpass : (sanitisedDurations scenes).sum
            ≤ PREVIEW_MAX_TOTAL_DURATION_SECONDS
        · rw [if_pos hpass, sanitisedDurations_length]
        · rw [if_neg hpass,
            clampDurationsWithMinimums_length _ _ _
              (by rw [previewClamped_length, previewMinimums_length]),
            previewClamped_length]

theorem rawValue_pos_of_finitePos {v : JSNum} (h : v.finitePos) :
    0 < v.rawValue := by
  cases v with
  | num q => exact h
  | nan => exact h.elim
  | posInf => exact h.elim
  | negInf => exact h.elim

theorem sanitiseDuration_of_finitePos {v : JSNum} (h : v.finitePos) :
    sanitiseDuration v = v.rawValue := by
  cases v with
  | num q =>
    have hq : 0 < q := h
    simp only [sanitiseDuration, JSNum.rawValue]
    rw [if_neg (not_le.mpr hq)]
  | nan => exact h.elim
  | posInf => exact h.elim
  | negInf => exact h.elim

theorem sanitiseDuration_of_not_finitePos {v : JSNum} (h : ¬ v.finitePos) :
    sanitiseDuration v = 0 := by
  cases v with
  | num q =>
    have hq : ¬ 0 < q := h
    simp only [sanitiseDuration]
    rw [if_pos (le_of_not_lt hq)]
  | nan => rfl
  | posInf => rfl
  | negInf => rfl

theorem sanitisedDurations_of_valid (scenes : List Scene)
    (hval : ∀ s ∈ scenes, s.duration.finitePos) :
    sanitisedDurations scenes = scenes.map (fun s => s.duration.rawValue) := by
  rw [sanitisedDurations]
  exact List.map_congr_left
    (fun s hs => sanitiseDuration_of_finitePos (hval s hs))

theorem sanitisedDurations_getD (scenes : List Scene) (i : ℕ)
    (hi : i < scenes.length) :
    (sanitisedDurations scenes).getD i 0
      = sanitiseDuration (scenes[i].duration) := by
  rw [sanitisedDurations,
    List.getD_eq_getElem _ _ (by rw [List.length_map]; exact hi),
    List.getElem_map]

theorem buildRenderPlan_length (scenes : List Scene) (fps : ℚ)
    (mode : RenderMode) :
    (buildRenderPlan scenes fps mode).length = scenes.length := by
  rw [buildRenderPlan]
  simp [List.enum_length]

theorem buildRenderPlan_getElem_durationSeconds (scenes : List Scene)
    (fps : ℚ) (mode : RenderMode) (i : ℕ)
    (hip : i < (buildRenderPlan scenes fps mode).length)
    (hi : i < scenes.length) :
    ((buildRenderPlan scenes fps mode)[i]).durationSeconds
      = (if 1 / 100 < (computeEffectiveDurations scenes mode).getD i 0
          then (computeEffectiveDurations scenes mode).getD i 0
          else if mode = .preview then PREVIEW_MIN_SCENE_DURATION_SECONDS
          else max (6 / 5) (1 / fps)) := by
  simp only [buildRenderPlan, List.getElem_map, List.getElem_enum]

theorem buildRenderPlan_getElem_frameCount (scenes : List Scene)
    (fps : ℚ) (mode : RenderMode) (i : ℕ)
    (hip : i < (buildRenderPlan scenes fps mode).length)
    (hi : i < scenes.length) :
    ((buildRenderPlan scenes fps mode)[i]).frameCount
      = max 1 ⌈((buildRenderPlan scenes fps mode)[i]).durationSeconds * fps⌉ := by
  simp only [buildRenderPlan, List.getElem_map, List.getElem_enum]

/-- Pointwise contract of `clampDurationsWithMinimums` that holds for every
input (no fuel hypothesis): the result stays between the minimums and the
input durations. -/
theorem clampDurations_pointwise (durations mins : List ℚ) (target : ℚ)
    (hlen : durations.length = mins.length)
    (hlow : ∀ i : ℕ, i < durations.length →
      mins.getD i 0 ≤ durations.getD i 0)
    (hm0 : ∀ i : ℕ, i < durations.length → 0 ≤ mins.getD i 0)
    (htarget : 0 < target) :
    ∀ i : ℕ, i < durations.length →
      mins.getD i 0
          ≤ (clampDurationsWithMinimums durations mins target).getD i 0 ∧
      (clampDurationsWithMinimums durations mins target).getD i 0
          ≤ durations.getD i 0 := by
  rw [clampDurationsWithMinimums]
  by_cases hnil : durations = []
  · rw [if_pos hnil]
    intro i hi
    exact ⟨hlow i hi, le_refl _⟩
  · rw [if_neg hnil]
    simp only
    by_cases hpass : durations.sum ≤ target
    · rw [if_pos hpass]
      intro i hi
      exact ⟨hlow i hi, le_refl _⟩
    · rw [if_neg hpass]
      obtain ⟨rlen, rpt, _⟩ := clampLoop_invariant mins target 1000
        durations.sum durations hlen hlow (le_refl _)
      set r := clampLoop mins target 1000 durations.sum durations with hr
      by_cases hresc : target < r.1
      · rw [if_pos hresc]
        intro i hi
        have hi2 : i < r.2.length := by rw [rlen]; exact hi
        have him : i < mins.length := by rw [← hlen]; exact hi
        rw [rescale_getD r.2 mins _ i hi2 him]
        refine ⟨le_max_left _ _, ?_⟩
        have h0a : 0 ≤ r.2.getD i 0 := le_trans (hm0 i hi) (rpt i hi).1
        have hsle : target / r.1 ≤ 1 := by
          rw [div_le_one (lt_trans htarget hresc)]
          exact le_of_lt hresc
        have hspos : (0 : ℚ) ≤ target / r.1 :=
          le_of_lt (div_pos htarget (lt_trans htarget hresc))
        have hscale : r.2.getD i 0 * (target / r.1) ≤ r.2.getD i 0 := by
          nlinarith
        exact max_le (hlow i hi) (le_trans hscale (rpt i hi).2)
      · rw [if_neg hresc]
        intro i hi
        exact rpt i hi

theorem computeEffectiveDurations_getD_zero (scenes : List Scene)
    (mode : RenderMode) (i : ℕ) (hi : i < scenes.length)
    (hz : (sanitisedDurations scenes).getD i 0 = 0) :
    (computeEffectiveDurations scenes mode).getD i 0 = 0 := by
  rw [computeEffectiveDurations]
  by_cases hmode : mode ≠ RenderMode.preview
  · rw [if_pos hmode]
    exact hz
  · rw [if_neg hmode]
    by_cases hnil : scenes = []
    · subst hnil
      exact absurd hi (by simp)
    · rw [if_neg hnil]
      by_cases hzs : (sanitisedDurations scenes).sum ≤ 0
      · rw [if_pos hzs]
        rw [List.getD_eq_getElem _ _ (by rw [List.length_replicate]; exact hi)]
        exact List.getElem_replicate 0 _
      · rw [if_neg hzs]
        by_cases hpass : (sanitisedDurations scenes).sum
            ≤ PREVIEW_MAX_TOTAL_DURATION_SECONDS
        · rw [if_pos hpass]
          exact hz
        · rw [if_neg hpass]
          have hic : i < (previewClamped scenes).length := by
            rw [previewClamped_length]
            exact hi
          have hm : (previewMinimums scenes).getD i 0 = 0 := by
            rw [previewMinimums_getD scenes i hi, hz]
            norm_num
          have hc : (previewClamped scenes).getD i 0 = 0 := by
            rw [previewClamped_getD scenes i hi, if_pos hm]
          have hpt := clampDurations_pointwise (previewClamped scenes)
            (previewMinimums scenes) PREVIEW_MAX_TOTAL_DURATION_SECONDS
            (by rw [previewClamped_length, previewMinimums_length])
            (fun j hj => previewMinimums_le_clamped scenes j
              (by rw [← previewClamped_length scenes]; exact hj))
            (fun j hj => by
              rw [previewMinimums_getD scenes j
                (by rw [← previewClamped_length scenes]; exact hj)]
              split_ifs
              · exact previewDynMin_nonneg scenes
              · exact le_refl 0)
            (by norm_num [PREVIEW_MAX_TOTAL_DURATION_SECONDS])
            i hic
          rw [hm, hc] at hpt
          linarith [hpt.1, hpt.2]

/-- Claim C1 (amended): for a scene list whose total sanitised duration
exceeds the preview cap and which has at most 999 scenes, the effective
preview durations sum to at most `cap + sceneCount * epsilon` (the bound
`cap + epsilon` of the original claim fails, see the counterexample), and no
positive-duration scene ends up below the dynamic minimum
`min(0.75, cap / positiveSceneCount)`. -/
theorem C1_preview_compression (scenes : List Scene)
    (htotal : PREVIEW_MAX_TOTAL_DURATION_SECONDS
      < (sanitisedDurations scenes).sum)
    (hcount : scenes.length ≤ 999) :
    (computeEffectiveDurations scenes .preview).sum
      ≤ PREVIEW_MAX_TOTAL_DURATION_SECONDS
        + (scenes.length : ℚ) * clampEpsilon ∧
    ∀ i : ℕ, i < scenes.length →
      0 < (sanitisedDurations scenes).getD i 0 →
      min PREVIEW_MIN_SCENE_DURATION_SECONDS
        (PREVIEW_MAX_TOTAL_DURATION_SECONDS /
          (positiveCount (sanitisedDurations scenes) : ℚ))
        ≤ (computeEffectiveDurations scenes .preview).getD i 0 := by
  have hcap : (0 : ℚ) < PREVIEW_MAX_TOTAL_DURATION_SECONDS := by
    norm_num [PREVIEW_MAX_TOTAL_DURATION_SECONDS]
  have hpos : 0 < (sanitisedDurations scenes).sum := by linarith
  have hnil : scenes ≠ [] := by
    intro h
    rw [h] at htotal
    norm_num [sanitisedDurations, PREVIEW_MAX_TOTAL_DURATION_SECONDS] at htotal
  have heq : computeEffectiveDurations scenes .preview
      = clampDurationsWithMinimums (previewClamped scenes)
        (previewMinimums scenes) PREVIEW_MAX_TOTAL_DURATION_SECONDS := by
    rw [computeEffectiveDurations, if_neg (by simp), if_neg hnil,
      if_neg (not_le.mpr hpos), if_neg (not_le.mpr htotal)]
  have hpc : 0 < positiveCount (sanitisedDurations scenes) :=
    positiveCount_pos_of_sum_pos _ hpos
  have hdm : previewDynMin scenes
      = min PREVIEW_MIN_SCENE_DURATION_SECONDS
        (PREVIEW_MAX_TOTAL_DURATION_SECONDS /
          (positiveCount (sanitisedDurations scenes) : ℚ)) := by
    rw [previewDynMin, if_pos hpc]
  obtain ⟨slen, spt, ssum⟩ := clampDurations_spec (previewClamped scenes)
    (previewMinimums scenes) PREVIEW_MAX_TOTAL_DURATION_SECONDS
    (by rw [previewClamped_length, previewMinimums_length])
    (fun i hi => previewMinimums_le_clamped scenes i
      (by rw [← previewClamped_length scenes]; exact hi))
    (fun i hi => by
      rw [previewMinimums_getD scenes i
        (by rw [← previewClamped_length scenes]; exact hi)]
      split_ifs
      · exact previewDynMin_nonneg scenes
      · exact le_refl 0)
    (previewMinimums_sum_le scenes)
    hcap
    (by
      have h1 := adjustableCount_le_length (previewMinimums scenes)
        (previewClamped scenes)
      rw [previewClamped_length] at h1
      omega)
  constructor
  · rw [heq]
    rw [previewClamped_length] at ssum
    exact ssum
  · intro i hi hposn
    rw [heq]
    have hic : i < (previewClamped scenes).length := by
      rw [previewClamped_length]
      exact hi
    have hlb := (spt i hic).1
    rw [previewMinimums_getD scenes i hi, if_pos hposn] at hlb
    rw [← hdm]
    exact hlb

/-- Counterexample to claim C1 as stated: a 21-scene preview input whose
total sanitised duration exceeds the cap, yet the returned effective
durations sum to strictly more than `cap + epsilon`. -/
theorem C1_counterexample :
    PREVIEW_MAX_TOTAL_DURATION_SECONDS < (sanitisedDurations c1CexScenes).sum ∧
    PREVIEW_MAX_TOTAL_DURATION_SECONDS + clampEpsilon
      < (computeEffectiveDurations c1CexScenes .preview).sum := by
  decide

/-- Witness for the amended claim C1 at a concrete two-scene input. -/
theorem C1_witness :
    (PREVIEW_MAX_TOTAL_DURATION_SECONDS
        < (sanitisedDurations demoScenes2).sum ∧ demoScenes2.length ≤ 999) ∧
    (computeEffectiveDurations demoScenes2 .preview).sum
      ≤ PREVIEW_MAX_TOTAL_DURATION_SECONDS
        + (demoScenes2.length : ℚ) * clampEpsilon :=
  ⟨⟨by decide, by decide⟩,
    (C1_preview_compression demoScenes2 (by decide) (by decide)).1⟩

/-- Claim C2 (confirmed over the data model of the spec, in which scene
durations are finite and strictly positive): when the total raw duration is
at most the preview cap, the preview effective durations are the raw
durations unchanged. -/
theorem C2_preview_pass_through (scenes : List Scene)
    (hval : ∀ s ∈ scenes, s.duration.finitePos)
    (hsum : (scenes.map (fun s => s.duration.rawValue)).sum
      ≤ PREVIEW_MAX_TOTAL_DURATION_SECONDS) :
    computeEffectiveDurations scenes .preview
      = scenes.map (fun s => s.duration.rawValue) := by
  have hsan := sanitisedDurations_of_valid scenes hval
  by_cases hnil : scenes = []
  · subst hnil
    rw [computeEffectiveDurations, if_neg (by simp), if_pos rfl]
    simp
  · have hpos : 0 < (sanitisedDurations scenes).sum := by
      apply List.sum_pos
      · intro x hx
        rw [hsan, List.mem_map] at hx
        obtain ⟨s, hs, rfl⟩ := hx
        exact rawValue_pos_of_finitePos (hval s hs)
      · rw [hsan]
        simpa using hnil
    rw [computeEffectiveDurations, if_neg (by simp), if_neg hnil,
      if_neg (not_le.mpr hpos), if_pos (by rw [hsan]; exact hsum)]
    exact hsan

/-- Witness for claim C2 at a concrete two-scene input totalling 10 s. -/
theorem C2_witness :
    (∀ s ∈ c2Scenes, s.duration.finitePos) ∧
    computeEffectiveDurations c2Scenes .preview
      = c2Scenes.map (fun s => s.duration.rawValue) :=
  ⟨by decide, C2_preview_pass_through c2Scenes (by decide) (by decide)⟩

/-- Claim C3 (confirmed): every render-plan item satisfies
`frameCount = max(1, ceil(durationSeconds * fps))`, where `durationSeconds`
is the effective duration carried in the item. -/
theorem C3_frame_count (scenes : List Scene) (fps : ℚ) (mode : RenderMode)
    (hfps : 1 ≤ fps) (it : SceneRenderPlanItem)
    (hmem : it ∈ buildRenderPlan scenes fps mode) :
    it.frameCount = max 1 ⌈it.durationSeconds * fps⌉ := by
  rw [buildRenderPlan] at hmem
  simp only [List.mem_map] at hmem
  obtain ⟨p, hp, rfl⟩ := hmem
  rfl

/-- Witness for claim C3 at the single-scene download plan. -/
theorem C3_witness :
    demoPlanItem.frameCount = max 1 ⌈demoPlanItem.durationSeconds * 24⌉ :=
  C3_frame_count [demoScene5] 24 .download (by norm_num) demoPlanItem
    (by decide)

/-- Claim C4 (confirmed over the data model of the spec): in download mode
every effective duration equals the raw duration, and the single 5-second
scene at 24 fps yields exactly one item with 120 frames. -/
theorem C4_download_no_compression (scenes : List Scene)
    (hval : ∀ s ∈ scenes, s.duration.finitePos) :
    computeEffectiveDurations scenes .download
      = scenes.map (fun s => s.duration.rawValue) ∧
    buildRenderPlan [demoScene5] 24 .download = [demoPlanItem] := by
  constructor
  · rw [computeEffectiveDurations, if_pos (by decide)]
    exact sanitisedDurations_of_valid scenes hval
  · decide

/-- Witness for claim C4 at the single 5-second scene. -/
theorem C4_witness :
    (∀ s ∈ [demoScene5], s.duration.finitePos) ∧
    computeEffectiveDurations [demoScene5] .download
      = [demoScene5].map (fun s => s.duration.rawValue) :=
  ⟨by decide, (C4_download_no_compression [demoScene5] (by decide)).1⟩

/-- Claim C10 (confirmed): a scene whose duration is not a finite positive
number gets effective duration 0 in both modes, and the plan substitutes the
fallback minimum (0.75 s in preview, `max(1.2, 1/fps)` s in download), so
its frame count is at least 1. -/
theorem C10_invalid_duration (scenes : List Scene) (fps : ℚ)
    (mode : RenderMode) (i : ℕ) (hi : i < scenes.length)
    (hieff : i < (computeEffectiveDurations scenes mode).length)
    (hip : i < (buildRenderPlan scenes fps mode).length)
    (hbad : ¬ (scenes[i].duration).finitePos) :
    (computeEffectiveDurations scenes mode)[i] = 0 ∧
    ((buildRenderPlan scenes fps mode)[i]).durationSeconds
      = (if mode = .preview then PREVIEW_MIN_SCENE_DURATION_SECONDS
          else max (6 / 5) (1 / fps)) ∧
    1 ≤ ((buildRenderPlan scenes fps mode)[i]).frameCount := by
  have hz : (sanitisedDurations scenes).getD i 0 = 0 := by
    rw [sanitisedDurations_getD scenes i hi,
      sanitiseDuration_of_not_finitePos hbad]
  have heff0 : (computeEffectiveDurations scenes mode).getD i 0 = 0 :=
    computeEffectiveDurations_getD_zero scenes mode i hi hz
  refine ⟨?_, ?_, ?_⟩
  · rw [← List.getD_eq_getElem _ 0 hieff]
    exact heff0
  · rw [buildRenderPlan_getElem_durationSeconds scenes fps mode i hip hi,
      heff0, if_neg (by norm_num)]
  · rw [buildRenderPlan_getElem_frameCount scenes fps mode i hip hi]
    exact le_max_left _ _

/-- Witness for claim C10 at a single scene with `NaN` duration. -/
theorem C10_witness :
    (computeEffectiveDurations [badScene] RenderMode.download).getD 0 0 = 0 ∧
    (1 : ℤ) ≤ ((buildRenderPlan [badScene] 24 RenderMode.download).getD 0
      { scene := badScene, durationSeconds := 0, frameCount := 0 }).frameCount := by
  have h := C10_invalid_duration [badScene] 24 .download 0 (by decide)
    (by decide) (by decide) (by decide)
  constructor
  · rw [List.getD_eq_getElem _ _ (by decide :
      (0 : ℕ) < (computeEffectiveDurations [badScene]
        RenderMode.download).length)]
    exact h.1
  · rw [List.getD_eq_getElem _ _ (by decide :
      (0 : ℕ) < (buildRenderPlan [badScene] 24 RenderMode.download).length)]
    exact h.2.2

theorem planFrameIndices_eq :
    ∀ (plan : List SceneRenderPlanItem) (d : ℕ),
      planFrameIndices plan d
        = (List.range (planTotalFrames plan)).map fun f => d + f
  | [], d => by simp [planFrameIndices, planTotalFrames]
  | it :: rest, d => by
    have ih := planFrameIndices_eq rest (d + it.frameCount.toNat)
    simp only [planFrameIndices, planTotalFrames, List.map_cons,
      List.sum_cons] at ih ⊢
    rw [ih, List.range_add, List.map_append, List.map_map]
    congr 1
    apply List.map_congr_left
    intro x _
    simp only [Function.comp_apply]
    omega

theorem updateOverallProgress_nonneg (sp w b : ℚ) (hsp : 0 ≤ sp)
    (hw : 0 ≤ w) (hb : 0 ≤ b) : 0 ≤ updateOverallProgress sp w b := by
  unfold updateOverallProgress
  apply le_min (by norm_num)
  positivity

theorem updateOverallProgress_le_one (sp w b : ℚ) :
    updateOverallProgress sp w b ≤ 1 :=
  le_trans (min_le_left _ _) (by norm_num)

theorem updateOverallProgress_mono (w b : ℚ) {sp1 sp2 : ℚ} (hw : 0 ≤ w)
    (h : sp1 ≤ sp2) :
    updateOverallProgress sp1 w b ≤ updateOverallProgress sp2 w b := by
  unfold updateOverallProgress
  apply min_le_min (le_refl _)
  nlinarith

theorem updateOverallProgress_ge_base (sp w b : ℚ) (hsp : 0 ≤ sp)
    (hw : 0 ≤ w) (hb99 : b ≤ 99 / 100) :
    b ≤ updateOverallProgress sp w b := by
  unfold updateOverallProgress
  apply le_min hb99
  nlinarith

theorem chain_append_le {l1 l2 : List ℚ} (c : ℚ)
    (h1 : List.Chain' (· ≤ ·) l1) (h2 : List.Chain' (· ≤ ·) l2)
    (hb1 : ∀ x ∈ l1, x ≤ c) (hb2 : ∀ y ∈ l2, c ≤ y) :
    List.Chain' (· ≤ ·) (l1 ++ l2) := by
  apply List.Chain'.append h1 h2
  intro x hx y hy
  have hxm : x ∈ l1 := List.mem_of_mem_getLast? hx
  have hym : y ∈ l2 := List.mem_of_mem_head? hy
  exact le_trans (hb1 x hxm) (hb2 y hym)

theorem chain_map_range_le (n : ℕ) (f : ℕ → ℚ)
    (hf : ∀ i : ℕ, i + 1 < n → f i ≤ f (i + 1)) :
    List.Chain' (· ≤ ·) ((List.range n).map f) := by
  rw [List.chain'_iff_get]
  intro i hi
  simp only [List.length_map, List.length_range] at hi
  simp only [List.get_eq_getElem, List.getElem_map, List.getElem_range]
  exact hf i (by omega)

theorem preloadEmissions_mem_bounds (n : ℕ) :
    ∀ v ∈ preloadEmissions n, 0 ≤ v ∧ v ≤ 1 := by
  intro v hv
  rw [preloadEmissions] at hv
  rcases List.mem_cons.mp hv with h0 | hrest
  · subst h0
    exact ⟨updateOverallProgress_nonneg _ _ _ (le_refl 0) (by norm_num)
      (le_refl 0), updateOverallProgress_le_one _ _ _⟩
  · rcases List.mem_append.mp hrest with hmap | hlast
    · rw [List.mem_map] at hmap
      obtain ⟨c, _, rfl⟩ := hmap
      refine ⟨updateOverallProgress_nonneg _ _ _ ?_ (by norm_num) (le_refl 0),
        updateOverallProgress_le_one _ _ _⟩
      positivity
    · rw [List.mem_singleton] at hlast
      subst hlast
      exact ⟨updateOverallProgress_nonneg _ _ _ (by norm_num) (by norm_num)
        (le_refl 0), updateOverallProgress_le_one _ _ _⟩

theorem preloadEmissions_mem_le (n : ℕ) :
    ∀ v ∈ preloadEmissions n, v ≤ 1 / 5 := by
  intro v hv
  rw [preloadEmissions] at hv
  have hkey : ∀ sp : ℚ, 0 ≤ sp → sp ≤ 1 →
      updateOverallProgress sp (1 / 5) 0 ≤ 1 / 5 := by
    intro sp h0 h1
    unfold updateOverallProgress
    apply le_trans (min_le_right _ _)
    nlinarith
  rcases List.mem_cons.mp hv with h0 | hrest
  · subst h0
    exact hkey 0 (le_refl 0) (by norm_num)
  · rcases List.mem_append.mp hrest with hmap | hlast
    · rw [List.mem_map] at hmap
      obtain ⟨c, hc, rfl⟩ := hmap
      rw [List.mem_range] at hc
      have hn : (0 : ℚ) < (n : ℚ) := by
        have : 0 < n := by omega
        exact_mod_cast this
      refine hkey _ (by positivity) ?_
      rw [div_le_one hn]
      have : (c : ℚ) + 1 ≤ (n : ℚ) := by exact_mod_cast hc
      linarith
    · rw [List.mem_singleton] at hlast
      subst hlast
      exact hkey 1 (by norm_num) (le_refl 1)

theorem encodeEmissions_mem_ge (plan : List SceneRenderPlanItem) :
    ∀ v ∈ encodeEmissions plan, 1 / 5 ≤ v := by
  intro v hv
  rw [encodeEmissions, List.mem_map] at hv
  obtain ⟨t, _, rfl⟩ := hv
  apply updateOverallProgress_ge_base _ _ _ ?_ (by norm_num) (by norm_num)
  positivity

theorem encodeEmissions_mem_bounds (plan : List SceneRenderPlanItem) :
    ∀ v ∈ encodeEmissions plan, 0 ≤ v ∧ v ≤ 1 := by
  intro v hv
  refine ⟨le_trans (by norm_num) (encodeEmissions_mem_ge plan v hv), ?_⟩
  rw [encodeEmissions, List.mem_map] at hv
  obtain ⟨t, _, rfl⟩ := hv
  exact updateOverallProgress_le_one _ _ _

theorem preloadEmissions_chain (n : ℕ) :
    List.Chain' (· ≤ ·) (preloadEmissions n) := by
  rw [preloadEmissions]
  rw [List.chain'_cons']
  constructor
  · intro y hy
    have hym := List.mem_of_mem_head? hy
    have h0 : (0 : ℚ) ≤ y := by
      rcases List.mem_append.mp hym with hmap | hlast
      · rw [List.mem_map] at hmap
        obtain ⟨c, _, rfl⟩ := hmap
        apply updateOverallProgress_nonneg _ _ _ ?_ (by norm_num) (le_refl 0)
        positivity
      · rw [List.mem_singleton] at hlast
        subst hlast
        exact updateOverallProgress_nonneg _ _ _ (by norm_num) (by norm_num)
          (le_refl 0)
    have hstart : updateOverallProgress 0 (1 / 5) 0 = 0 := by
      unfold updateOverallProgress
      rw [min_eq_right (by norm_num)]
      ring
    rw [hstart]
    exact h0
  · apply chain_append_le (1 / 5)
    · apply chain_map_range_le
      intro i hi
      apply updateOverallProgress_mono _ _ (by norm_num)
      have hn : (0 : ℚ) < (n : ℚ) := by
        have : 0 < n := by omega
        exact_mod_cast this
      rw [div_le_div_iff hn hn]
      push_cast
      nlinarith
    · exact List.chain'_singleton _
    · intro x hx
      rw [List.mem_map] at hx
      obtain ⟨c, hc, rfl⟩ := hx
      rw [List.mem_range] at hc
      have hn : (0 : ℚ) < (n : ℚ) := by
        have : 0 < n := by omega
        exact_mod_cast this
      have hsp1 : ((c : ℚ) + 1) / (n : ℚ) ≤ 1 := by
        rw [div_le_one hn]
        have : (c : ℚ) + 1 ≤ (n : ℚ) := by exact_mod_cast hc
        linarith
      unfold updateOverallProgress
      apply le_trans (min_le_right _ _)
      nlinarith [hsp1]
    · intro y hy
      rw [List.mem_singleton] at hy
      subst hy
      unfold updateOverallProgress
      apply le_min (by norm_num)
      norm_num

theorem encodeEmissions_chain (plan : List SceneRenderPlanItem) :
    List.Chain' (· ≤ ·) (encodeEmissions plan) := by
  rw [encodeEmissions, planFrameIndices_eq, List.map_map]
  apply chain_map_range_le
  intro i hi
  simp only [Function.comp_apply]
  apply updateOverallProgress_mono _ _ (by norm_num)
  have hF : (0 : ℚ) < (planTotalFrames plan : ℚ) := by
    have : 0 < planTotalFrames plan := by omega
    exact_mod_cast this
  rw [div_le_div_iff hF hF]
  push_cast
  nlinarith

theorem backendProgressTrace_chain (scenes : List Scene) (fps : ℚ)
    (mode : RenderMode) :
    List.Chain' (· ≤ ·) (backendProgressTrace scenes fps mode) := by
  rw [backendProgressTrace, List.append_assoc]
  apply chain_append_le (1 / 5) (preloadEmissions_chain scenes.length)
  · apply chain_append_le (99 / 100)
      (encodeEmissions_chain (buildRenderPlan scenes fps mode))
      (List.chain'_singleton _)
    · intro x hx
      rw [encodeEmissions, List.mem_map] at hx
      obtain ⟨t, _, rfl⟩ := hx
      exact min_le_left _ _
    · intro y hy
      rw [List.mem_singleton] at hy
      subst hy
      norm_num
  · exact preloadEmissions_mem_le scenes.length
  · intro y hy
    rcases List.mem_append.mp hy with henc | hone
    · exact encodeEmissions_mem_ge _ y henc
    · rw [List.mem_singleton] at hone
      subst hone
      norm_num

theorem backendProgressTrace_mem_bounds (scenes : List Scene) (fps : ℚ)
    (mode : RenderMode) :
    ∀ v ∈ backendProgressTrace scenes fps mode, 0 ≤ v ∧ v ≤ 1 := by
  intro v hv
  rw [backendProgressTrace] at hv
  rcases List.mem_append.mp hv with hv1 | hone
  · rcases List.mem_append.mp hv1 with hpre | henc
    · exact preloadEmissions_mem_bounds _ v hpre
    · exact encodeEmissions_mem_bounds _ v henc
  · rw [List.mem_singleton] at hone
    subst hone
    norm_num

theorem fallbackCallProgressTrace_mem_bounds (scenes : List Scene) (fps : ℚ)
    (mode : RenderMode) (k : ℕ) :
    ∀ v ∈ fallbackCallProgressTrace scenes fps mode k, 0 ≤ v ∧ v ≤ 1 := by
  intro v hv
  rw [fallbackCallProgressTrace] at hv
  rcases List.mem_append.mp hv with hfail | hfull
  · rw [wcFailedProgressTrace] at hfail
    rcases List.mem_append.mp hfail with hpre | htake
    · exact preloadEmissions_mem_bounds _ v hpre
    · exact encodeEmissions_mem_bounds _ v (List.mem_of_mem_take htake)
  · exact backendProgressTrace_mem_bounds scenes fps mode v hfull

theorem loadAttemptLoop_ok (scene : Scene) (outcomes : ℕ → AttemptOutcome)
    (k remaining : ℕ) (h : outcomes k = .ok) :
    loadAttemptLoop scene outcomes k remaining = ([.attempt k], .image) := by
  cases remaining with
  | zero => rw [loadAttemptLoop, h]
  | succ r => rw [loadAttemptLoop, h]

theorem loadAttemptLoop_abort (scene : Scene) (outcomes : ℕ → AttemptOutcome)
    (k remaining : ℕ) (h : outcomes k = .abort) :
    loadAttemptLoop scene outcomes k remaining
      = ([.attempt k], .abortError) := by
  cases remaining with
  | zero => rw [loadAttemptLoop, h]
  | succ r => rw [loadAttemptLoop, h]

theorem loadAttemptLoop_fail_zero (scene : Scene)
    (outcomes : ℕ → AttemptOutcome) (k : ℕ) (h : outcomes k = .fail) :
    loadAttemptLoop scene outcomes k 0
      = ([.attempt k], .fallbackImage (computeSceneAccentColor scene)) := by
  rw [loadAttemptLoop, h]

theorem loadAttemptLoop_fail_succ (scene : Scene)
    (outcomes : ℕ → AttemptOutcome) (k r : ℕ) (h : outcomes k = .fail) :
    loadAttemptLoop scene outcomes k (r + 1)
      = (.attempt k :: .backoffSleep (INITIAL_RETRY_DELAY_MS * 2 ^ k)
            :: (loadAttemptLoop scene outcomes (k + 1) r).1,
          (loadAttemptLoop scene outcomes (k + 1) r).2) := by
  rw [loadAttemptLoop, h]

theorem loadAttemptLoop_events_ne_nil (scene : Scene)
    (outcomes : ℕ → AttemptOutcome) (k remaining : ℕ) :
    (loadAttemptLoop scene outcomes k remaining).1 ≠ [] := by
  cases hout : outcomes k with
  | ok => rw [loadAttemptLoop_ok scene outcomes k remaining hout]; simp
  | abort => rw [loadAttemptLoop_abort scene outcomes k remaining hout]; simp
  | fail =>
    cases remaining with
    | zero => rw [loadAttemptLoop_fail_zero scene outcomes k hout]; simp
    | succ r => rw [loadAttemptLoop_fail_succ scene outcomes k r hout]; simp

theorem loadLoop_no_sleep_after_abort (scene : Scene)
    (outcomes : ℕ → AttemptOutcome) :
    ∀ (remaining k : ℕ),
      (loadAttemptLoop scene outcomes k remaining).2 = .abortError →
      ∃ j, outcomes j = .abort ∧
        (loadAttemptLoop scene outcomes k remaining).1.getLast?
          = some (.attempt j) := by
  intro remaining
  induction remaining with
  | zero =>
    intro k h
    cases hout : outcomes k with
    | ok => rw [loadAttemptLoop_ok scene outcomes k 0 hout] at h; simp at h
    | abort => rw [loadAttemptLoop_abort scene outcomes k 0 hout]
               exact ⟨k, hout, rfl⟩
    | fail => rw [loadAttemptLoop_fail_zero scene outcomes k hout] at h
              simp at h
  | succ r ih =>
    intro k h
    cases hout : outcomes k with
    | ok => rw [loadAttemptLoop_ok scene outcomes k (r + 1) hout] at h
            simp at h
    | abort => rw [loadAttemptLoop_abort scene outcomes k (r + 1) hout]
               exact ⟨k, hout, rfl⟩
    | fail =>
      rw [loadAttemptLoop_fail_succ scene outcomes k r hout] at h ⊢
      simp only at h
      obtain ⟨j, hj, hlast⟩ := ih (k + 1) h
      refine ⟨j, hj, ?_⟩
      simp only
      rw [List.getLast?_cons_cons]
      cases hrest : (loadAttemptLoop scene outcomes (k + 1) r).1 with
      | nil => exact absurd hrest (loadAttemptLoop_events_ne_nil _ _ _ _)
      | cons c cs =>
        rw [List.getLast?_cons_cons]
        rw [hrest] at hlast
        exact hlast

/-- Claim C5 (confirmed): with the capability probe negative the low-level
backend is never attempted; with it positive the low-level backend is
attempted first and on any failure the whole render is retried once with
the fallback backend using the same configuration; a rejection with a
non-cancellation error implies the fallback backend itself failed with that
error. -/
theorem C5_backend_fallback (mode : RenderMode) (scenes : List Scene)
    (support : Bool) (wc mr : RenderConfig → BackendOutcome) :
    ((generateWebMFromScenes false mode scenes wc mr).1.map Prod.fst
        = [BackendKind.mediaRecorder]) ∧
    (∀ e : RenderErrorKind,
      wc (resolveOptimizedRenderConfig mode scenes) = .error e →
      (generateWebMFromScenes true mode scenes wc mr).1
        = [(BackendKind.webcodecs, resolveOptimizedRenderConfig mode scenes),
           (BackendKind.mediaRecorder,
             resolveOptimizedRenderConfig mode scenes)] ∧
      (generateWebMFromScenes true mode scenes wc mr).2
        = mr (resolveOptimizedRenderConfig mode scenes)) ∧
    (∀ r : GeneratedVideoResult,
      wc (resolveOptimizedRenderConfig mode scenes) = .ok r →
      (generateWebMFromScenes true mode scenes wc mr).1
        = [(BackendKind.webcodecs, resolveOptimizedRenderConfig mode scenes)] ∧
      (generateWebMFromScenes true mode scenes wc mr).2 = .ok r) ∧
    (∀ e : RenderErrorKind,
      (generateWebMFromScenes support mode scenes wc mr).2 = .error e →
      e ≠ .abortError →
      mr (resolveOptimizedRenderConfig mode scenes) = .error e) := by
  refine ⟨?_, ?_, ?_, ?_⟩
  · rw [generateWebMFromScenes]
    simp
  · intro e he
    rw [generateWebMFromScenes]
    simp only [if_pos rfl, he]
    exact ⟨rfl, rfl⟩
  · intro r hr
    rw [generateWebMFromScenes]
    simp only [if_pos rfl, hr]
    exact ⟨rfl, rfl⟩
  · intro e he hne
    rw [generateWebMFromScenes] at he
    cases support with
    | false => simpa using he
    | true =>
      simp only [if_pos rfl] at he
      cases hwc : wc (resolveOptimizedRenderConfig mode scenes) with
      | ok r => rw [hwc] at he; simp at he
      | error e2 => rw [hwc] at he; simpa using he

/-- Witness for claim C5: with WebCodecs available but failing mid-render,
the call falls back to the MediaRecorder backend and returns its result. -/
theorem C5_witness :
    demoFailWc (resolveOptimizedRenderConfig .preview [demoScene5])
      = .error (.failure "encoder crashed") ∧
    (generateWebMFromScenes true .preview [demoScene5] demoFailWc demoOkMr).2
      = demoOkMr (resolveOptimizedRenderConfig .preview [demoScene5]) :=
  ⟨rfl,
    ((C5_backend_fallback .preview [demoScene5] true demoFailWc demoOkMr).2.1
      (.failure "encoder crashed") rfl).2⟩

/-- Counterexample to claim C6 as stated: when the cancellation signal
fires during the WebCodecs attempt (which therefore rejects with an
AbortError), the unconditional catch of the orchestrator still initiates
the MediaRecorder fallback attempt - a retry of the entire render started
after cancellation was observed, contradicting that no further retries are
initiated once cancellation has been observed. -/
theorem C6_counterexample :
    (generateWebMFromScenes true RenderMode.preview [demoScene5]
        (fun _ => .error .abortError)
        (mediaRecorderEntry true demoOkMr)).1.map Prod.fst
      = [BackendKind.webcodecs, BackendKind.mediaRecorder] := by
  rfl

/-- Claim C6 (amended): when the cancellation signal has fired, the promise
rejects with the distinct AbortError kind - the already-aborted signal makes
the MediaRecorder entry reject with an AbortError at its first cancellation
check, so a cancelled render never surfaces a generic failure - and inside
the retry loader an abort ends the call at the aborting attempt, so no
backoff sleep is initiated after cancellation is observed; however the
orchestrator does initiate the single fallback-backend attempt after a
WebCodecs AbortError (see the counterexample), and that attempt itself
aborts immediately. -/
theorem C6_abort_rejection (mode : RenderMode) (scenes : List Scene)
    (support : Bool) (wc mrBehavior : RenderConfig → BackendOutcome)
    (hwc : support = true →
      wc (resolveOptimizedRenderConfig mode scenes) = .error .abortError) :
    (generateWebMFromScenes support mode scenes wc
        (mediaRecorderEntry true mrBehavior)).2 = .error .abortError ∧
    ∀ (scene : Scene) (outcomes : ℕ → AttemptOutcome) (k remaining : ℕ),
      (loadAttemptLoop scene outcomes k remaining).2 = .abortError →
      ∃ j, outcomes j = .abort ∧
        (loadAttemptLoop scene outcomes k remaining).1.getLast?
          = some (.attempt j) := by
  constructor
  · cases support with
    | false =>
      rw [generateWebMFromScenes]
      simp [mediaRecorderEntry]
    | true =>
      rw [generateWebMFromScenes]
      simp only [if_pos rfl, hwc rfl]
      simp [mediaRecorderEntry]
  · exact fun scene outcomes k remaining h =>
      loadLoop_no_sleep_after_abort scene outcomes remaining k h

/-- Witness for the amended claim C6: cancellation during the WebCodecs
attempt still ends in an AbortError rejection. -/
theorem C6_witness :
    (generateWebMFromScenes true RenderMode.preview [demoScene5]
        (fun _ => .error .abortError)
        (mediaRecorderEntry true demoOkMr)).2 = .error .abortError :=
  (C6_abort_rejection RenderMode.preview [demoScene5] true
      (fun _ => .error .abortError) demoOkMr (fun _ => rfl)).1

/-- Claim C7 (amended): within one backend attempt the progress values are
monotonically non-decreasing and lie in [0, 1], and every value delivered
across a call with a backend fallback still lies in [0, 1]; monotonicity
across the low-level-to-fallback transition fails because the fallback
attempt restarts its progress from 0 (see the counterexample). -/
theorem C7_progress_per_attempt (scenes : List Scene) (fps : ℚ)
    (mode : RenderMode) (k : ℕ) :
    List.Chain' (· ≤ ·) (backendProgressTrace scenes fps mode) ∧
    (∀ v ∈ backendProgressTrace scenes fps mode, 0 ≤ v ∧ v ≤ 1) ∧
    (∀ v ∈ fallbackCallProgressTrace scenes fps mode k, 0 ≤ v ∧ v ≤ 1) :=
  ⟨backendProgressTrace_chain scenes fps mode,
    backendProgressTrace_mem_bounds scenes fps mode,
    fallbackCallProgressTrace_mem_bounds scenes fps mode k⟩

/-- Counterexample to claim C7 as stated: across the transition from the
failed WebCodecs attempt to the MediaRecorder fallback, the delivered
progress values decrease (the value right after the transition, index 5, is
0, strictly below the pre-transition value at index 4). -/
theorem C7_counterexample :
    5 < (fallbackCallProgressTrace c7Scenes 5 RenderMode.preview 2).length ∧
    (fallbackCallProgressTrace c7Scenes 5 RenderMode.preview 2).getD 5 1
      < (fallbackCallProgressTrace c7Scenes 5 RenderMode.preview 2).getD 4 0 := by
  constructor
  · decide
  · decide

/-- Claim C8 (amended): when every load attempt fails with a non-abort
failure, the loader yields the stylised fallback image rather than a hard
failure, and its accent color is `computeSceneAccentColor` - a pure
function of the scene id, keywords, image prompt and caption text together
(not of the id alone, see the counterexample); in particular two runs on
the same scene always produce the same fallback color. -/
theorem C8_fallback_deterministic (scene : Scene)
    (outcomes : ℕ → AttemptOutcome) (hfail : ∀ k, outcomes k = .fail) :
    (loadImageWithRetries scene outcomes).2
      = .fallbackImage (computeSceneAccentColor scene) ∧
    ∀ s1 s2 : Scene, s1.id = s2.id → s1.keywords = s2.keywords →
      s1.imagePrompt = s2.imagePrompt → s1.sceneText = s2.sceneText →
      computeSceneAccentColor s1 = computeSceneAccentColor s2 := by
  constructor
  · rw [loadImageWithRetries, IMAGE_LOAD_RETRIES,
      loadAttemptLoop_fail_succ scene outcomes 0 1 (hfail 0),
      loadAttemptLoop_fail_succ scene outcomes 1 0 (hfail 1),
      loadAttemptLoop_fail_zero scene outcomes 2 (hfail 2)]
  · intro s1 s2 h1 h2 h3 h4
    rw [computeSceneAccentColor, computeSceneAccentColor, h1, h2, h3, h4]

/-- Counterexample to claim C8 as stated: two scenes with the same id but
different caption text receive different fallback accent colors, so the
color is not a pure function of the scene id. -/
theorem C8_counterexample :
    c8SceneA.id = c8SceneB.id ∧
    computeSceneAccentColor c8SceneA ≠ computeSceneAccentColor c8SceneB := by
  constructor
  · rfl
  · decide

/-- Witness for the amended claim C8: a scene whose every load attempt
fails yields the deterministic stylised fallback. -/
theorem C8_witness :
    (loadImageWithRetries c8SceneA (fun _ => .fail)).2
      = .fallbackImage (computeSceneAccentColor c8SceneA) :=
  (C8_fallback_deterministic c8SceneA (fun _ => .fail) (fun _ => rfl)).1

/-- Claim C9 (amended): in the WebCodecs backend every frame timestamp
equals `frameIndex * round(1_000_000 / fps)` microseconds, with
`frameIndex` the zero-based count of frames submitted so far across the
whole render - the per-frame duration is rounded to a whole microsecond
once and then multiplied, so the exact value
`frameIndex * (1_000_000 / fps)` claimed originally fails whenever `fps`
does not divide 1_000_000 (see the counterexample). -/
theorem C9_frame_timestamps (scenes : List Scene) (fps : ℚ)
    (mode : RenderMode) (k : ℕ)
    (hk : k < (wcFrameTimestamps scenes fps mode).length) :
    (wcFrameTimestamps scenes fps mode)[k] = (k : ℤ) * frameDurationUS fps := by
  simp only [wcFrameTimestamps, planFrameIndices_eq, List.map_map,
    List.getElem_map, List.getElem_range, Function.comp_apply]
  norm_num

/-- Counterexample to claim C9 as stated: at 15 fps the fourth frame
(zero-based index 3) is stamped 200001 microseconds, while
`3 * (1_000_000 / 15)` is exactly 200000 microseconds. -/
theorem C9_counterexample :
    (wcFrameTimestamps c9Scenes 15 RenderMode.preview).getD 3 0 = 200001 ∧
    ¬ ((200001 : ℚ) = 3 * (1000000 / 15)) := by
  constructor
  · decide
  · decide

/-- Witness for the amended claim C9 at the 5-second download scene. -/
theorem C9_witness :
    (wcFrameTimestamps [demoScene5] 24 RenderMode.download).getD 2 0
      = (2 : ℤ) * frameDurationUS 24 := by
  rw [List.getD_eq_getElem _ _ (by decide :
    (2 : ℕ) < (wcFrameTimestamps [demoScene5] 24 RenderMode.download).length)]
  exact C9_frame_timestamps [demoScene5] 24 .download 2 (by decide)

end Autocreate
